import Mathlib

/-!
Container layout (conainer.go)

A shallow embedding of the `Container` primitive: an ordered list of layout
entries stacked along one axis, with the mutation operations, the layout and
draw pass, and the focus queries.

Modelling conventions.

* A `Primitive` reference is a value of an arbitrary type `ι` with decidable
  equality (Go compares interface values by identity); a nil interface is
  `none`.
* The behaviour of the items during one call is a record `Primitives ι`: the
  natural sizes `GetWidth`, `GetHeight` and the answer of
  `GetFocusable().HasFocus()`.
* Go `int` is modelled twice. `drawItems` computes in `Int` without bound
  (cursor and sizes far from the 64-bit range); `drawItems64` is the same
  code with every addition and subtraction wrapped to 64 bits, as Go computes
  them. The two agree when no sum leaves the 64-bit range
  (`drawItems64_eq_drawItems`).
* Go `==` on interface values is modelled twice as well. `removeLoop` takes
  it as the decidable equality of `ι`; `removeLoopCmp` adds the run-time panic
  of `==` on two values of the same uncomparable dynamic type.
* The calls a function makes on its collaborators (`SetRect`, `Draw`, the
  focus delegate) are returned as lists, in call order.
* `Box` is not part of the sources: the inner rectangle query is a parameter.
-/

namespace Tview

/-! ## Data model -/

/-- Configuration value `ContainerRow` (first `iota`). -/
def ContainerRow : Int := 0

/-- Configuration value `ContainerColumn` (second `iota`). -/
def ContainerColumn : Int := 1

/-- Layout options for one item (`type containerItem struct`). -/
structure containerItem (ι : Type) where
  Item : Option ι
  FixedSize : Int
  Focus : Bool
deriving DecidableEq

/-- Rectangle as passed to `SetRect(x, y, width, height)`. -/
structure Rect where
  x : Int
  y : Int
  width : Int
  height : Int
deriving DecidableEq

/-- Observable answers of the items during one call. -/
structure Primitives (ι : Type) where
  GetWidth : ι → Int → Int
  GetHeight : ι → Int → Int
  HasFocus : ι → Bool

/-- The `Container` struct: entries, direction, full-screen flag and the
rectangle stored in the embedded `Box`. -/
structure Container (ι : Type) where
  items : List (containerItem ι)
  direction : Int
  fullScreen : Bool
  rect : Rect

/-! ## Configuration and mutation -/

/-- Constructor `NewContainer()`: no entries, direction `ContainerColumn`; the
rectangle is the one `NewBox()` starts with, taken as a parameter. -/
def NewContainer {ι : Type} (boxRect : Rect) : Container ι :=
  ⟨[], ContainerColumn, false, boxRect⟩

/-- Setter `SetDirection`. -/
def SetDirection {ι : Type} (f : Container ι) (direction : Int) : Container ι :=
  ⟨f.items, direction, f.fullScreen, f.rect⟩

/-- Setter `SetFullScreen`. -/
def SetFullScreen {ι : Type} (f : Container ι) (fullScreen : Bool) : Container ι :=
  ⟨f.items, f.direction, fullScreen, f.rect⟩

/-- Method `AddItem`: appends an entry when `item != nil`. -/
def AddItem {ι : Type} (f : Container ι) (item : Option ι) (fixedSize : Int) (focus : Bool) :
    Container ι :=
  match item with
  | some p => ⟨f.items ++ [⟨some p, fixedSize, focus⟩], f.direction, f.fullScreen, f.rect⟩
  | none => f

/-- The loop of `RemoveItem`, `n` iterations left: the next index visited is
`n - 1`. Indexing outside the slice is a run-time panic, `none` here. The
deletion `append(items[:index], items[index+1:]...)` keeps what is before and
what is after `index`. -/
def removeLoop {ι : Type} [DecidableEq ι] (p : Option ι) :
    Nat → List (containerItem ι) → Option (List (containerItem ι))
  | 0, items => some items
  | index + 1, items =>
    match items[index]? with
    | none => none
    | some e =>
      if e.Item = p then removeLoop p index (items.take index ++ items.drop (index + 1))
      else removeLoop p index items

/-- Entry list after `RemoveItem(p)`; `none` would be a panic. -/
def removeItems {ι : Type} [DecidableEq ι] (items : List (containerItem ι)) (p : Option ι) :
    Option (List (containerItem ι)) :=
  removeLoop p items.length items

/-- Method `RemoveItem`. -/
def RemoveItem {ι : Type} [DecidableEq ι] (f : Container ι) (p : Option ι) :
    Option (Container ι) :=
  (removeItems f.items p).map fun items => ⟨items, f.direction, f.fullScreen, f.rect⟩

/-- Method `Clear`. -/
def Clear {ι : Type} (f : Container ι) : Container ι :=
  ⟨[], f.direction, f.fullScreen, f.rect⟩

/-- The loop of `ResizeItem` over the entries. -/
def resizeItems {ι : Type} [DecidableEq ι] (p : Option ι) (fixedSize : Int) :
    List (containerItem ι) → List (containerItem ι)
  | [] => []
  | item :: rest =>
    (if item.Item = p then ⟨item.Item, fixedSize, item.Focus⟩ else item) ::
      resizeItems p fixedSize rest

/-- Method `ResizeItem`; `proportion` is accepted and not used. -/
def ResizeItem {ι : Type} [DecidableEq ι] (f : Container ι) (p : Option ι)
    (fixedSize : Int) (_proportion : Int) : Container ι :=
  ⟨resizeItems p fixedSize f.items, f.direction, f.fullScreen, f.rect⟩

/-! ## Draw -/

/-- Local state of the loop in `Draw` together with the calls made so far. -/
structure DrawState (ι : Type) where
  /-- the cursor `pos` -/
  pos : Int
  /-- the `SetRect` calls so far, in call order, each with the index of its entry -/
  rects : List (Nat × ι × Rect)
  /-- the `Draw` calls already made on items, in call order -/
  drawn : List (Nat × ι)
  /-- the deferred `Draw` calls, the most recently deferred first -/
  deferred : List (Nat × ι)

/-- Result of one `Draw`: the `SetRect` calls and the `Draw` calls on items,
both in call order. -/
structure DrawResult (ι : Type) where
  rects : List (Nat × ι × Rect)
  draws : List (Nat × ι)

/-- The size required by an entry with item `p` (lines 147-154). -/
def requiredSize {ι : Type} (env : Primitives ι) (direction width height : Int)
    (item : containerItem ι) (p : ι) : Int :=
  if item.FixedSize ≥ 0 then item.FixedSize
  else if direction = ContainerRow then env.GetHeight p width
  else env.GetWidth p height

/-- The clipping of lines 155-157. -/
def clipSize (pos maxPos size : Int) : Int :=
  if pos + size > maxPos then maxPos - pos else size

/-- The rectangle of the `SetRect` call (lines 160-164). -/
def itemRect (direction x y width height pos size : Int) : Rect :=
  if direction = ContainerColumn then ⟨pos, y, size, height⟩ else ⟨x, pos, width, size⟩

/-- One iteration of the loop of `Draw` on the entry `item` of index `idx`.
The boolean is true when the iteration ends in `break`. -/
def drawEntry {ι : Type} (env : Primitives ι) (direction x y width height maxPos : Int)
    (idx : Nat) (item : containerItem ι) (st : DrawState ι) : DrawState ι × Bool :=
  match item.Item with
  | none =>
    (if item.FixedSize ≥ 0 then ⟨st.pos + item.FixedSize, st.rects, st.drawn, st.deferred⟩
     else st, false)
  | some p =>
    let size := clipSize st.pos maxPos (requiredSize env direction width height item p)
    let st1 : DrawState ι :=
      if size > 0 then
        let rects := st.rects ++ [(idx, p, itemRect direction x y width height st.pos size)]
        if env.HasFocus p then ⟨st.pos + size, rects, st.drawn, (idx, p) :: st.deferred⟩
        else ⟨st.pos + size, rects, st.drawn ++ [(idx, p)], st.deferred⟩
      else st
    (st1, decide (st1.pos > maxPos))

/-- The loop of `Draw` over the entries from index `idx` on. -/
def drawLoop {ι : Type} (env : Primitives ι) (direction x y width height maxPos : Int) :
    Nat → List (containerItem ι) → DrawState ι → DrawState ι
  | _, [], st => st
  | idx, item :: rest, st =>
    let r := drawEntry env direction x y width height maxPos idx item st
    if r.2 then r.1 else drawLoop env direction x y width height maxPos (idx + 1) rest r.1

/-- Cursor start of `Draw` (lines 132-137). -/
def startPos (direction x y : Int) : Int :=
  if direction = ContainerRow then y else x

/-- Cursor limit `maxPos` of `Draw` (lines 133-137). -/
def limitPos (direction x y width height : Int) : Int :=
  if direction = ContainerRow then y + height else x + width

/-- The part of `Draw` after `GetInnerRect` (lines 131-177): the loop, then the
deferred draws, which Go runs last in, first out. -/
def drawItems {ι : Type} (env : Primitives ι) (direction : Int) (inner : Rect)
    (items : List (containerItem ι)) : DrawResult ι :=
  let st := drawLoop env direction inner.x inner.y inner.width inner.height
    (limitPos direction inner.x inner.y inner.width inner.height) 0 items
    ⟨startPos direction inner.x inner.y, [], [], []⟩
  ⟨st.rects, st.drawn ++ st.deferred⟩

/-- Method `Draw`: the rectangle of the container after the call and the calls
made on the items. `getInnerRect` stands for `Box.GetInnerRect` as a function
of the stored rectangle, `screenSize` for `screen.Size()`. The first statement,
`f.Box.Draw(screen)`, paints border and background and calls no item. -/
def Draw {ι : Type} (env : Primitives ι) (getInnerRect : Rect → Rect) (screenSize : Int × Int)
    (f : Container ι) : Container ι × DrawResult ι :=
  let rect : Rect := if f.fullScreen then ⟨0, 0, screenSize.1, screenSize.2⟩ else f.rect
  (⟨f.items, f.direction, f.fullScreen, rect⟩,
    drawItems env f.direction (getInnerRect rect) f.items)

/-! ## Focus -/

/-- Method `Focus`: the list of calls made on `delegate`. -/
def Focus {ι : Type} : List (containerItem ι) → List ι
  | [] => []
  | item :: rest =>
    match item.Item with
    | some p => if item.Focus then [p] else Focus rest
    | none => Focus rest

/-- Method `HasFocus`. -/
def HasFocus {ι : Type} (env : Primitives ι) : List (containerItem ι) → Bool
  | [] => false
  | item :: rest =>
    match item.Item with
    | some p => if env.HasFocus p then true else HasFocus env rest
    | none => HasFocus env rest

/-! ## Vocabulary of the statements -/

/-- Origin of a rectangle along the layout axis. -/
def axisOrigin (direction : Int) (r : Rect) : Int :=
  if direction = ContainerRow then r.y else r.x

/-- Extent of a rectangle along the layout axis. -/
def axisExtent (direction : Int) (r : Rect) : Int :=
  if direction = ContainerRow then r.height else r.width

/-- Extent of a rectangle across the layout axis. -/
def crossExtent (direction : Int) (r : Rect) : Int :=
  if direction = ContainerRow then r.width else r.height

/-- The `SetRect` calls made for the entry of index `i`. -/
def rectsOf {ι : Type} (res : DrawResult ι) (i : Nat) : List (Nat × ι × Rect) :=
  res.rects.filter fun c => c.1 = i

/-- The `Draw` calls made for the entry of index `i`. -/
def drawsOf {ι : Type} (res : DrawResult ι) (i : Nat) : List (Nat × ι) :=
  res.draws.filter fun c => c.1 = i

/-- State of the loop of `Draw` when it is about to start the iteration that
follows the entries `items`, all of them visited; `none` when a `break` ends
the loop among them. -/
def stateAfter {ι : Type} (env : Primitives ι) (direction x y width height maxPos : Int) :
    Nat → List (containerItem ι) → DrawState ι → Option (DrawState ι)
  | _, [], st => some st
  | idx, item :: rest, st =>
    let r := drawEntry env direction x y width height maxPos idx item st
    if r.2 then none else stateAfter env direction x y width height maxPos (idx + 1) rest r.1

/-- State in which `Draw` on the inner rectangle `inner` reaches the entry
that follows `before`, when it reaches it. -/
def reaches {ι : Type} (env : Primitives ι) (direction : Int) (inner : Rect)
    (before : List (containerItem ι)) : Option (DrawState ι) :=
  stateAfter env direction inner.x inner.y inner.width inner.height
    (limitPos direction inner.x inner.y inner.width inner.height) 0 before
    ⟨startPos direction inner.x inner.y, [], [], []⟩

/-- Sizes required by the entries of a list with items present (0 for an
entry without item, which requires nothing). -/
def requiredSizes {ι : Type} (env : Primitives ι) (direction width height : Int)
    (items : List (containerItem ι)) : List Int :=
  items.map fun e =>
    match e.Item with
    | some p => requiredSize env direction width height e p
    | none => 0

/-- The `Draw` call that goes with a `SetRect` call. -/
def callOf {ι : Type} (c : Nat × ι × Rect) : Nat × ι := (c.1, c.2.1)

/-- The `SetRect` calls of one iteration of the loop of `Draw` started with
the cursor at `pos`: none, or one. -/
def entryRects {ι : Type} (env : Primitives ι) (direction x y width height maxPos : Int)
    (idx : Nat) (item : containerItem ι) (pos : Int) : List (Nat × ι × Rect) :=
  match item.Item with
  | none => []
  | some p =>
    if clipSize pos maxPos (requiredSize env direction width height item p) > 0 then
      [(idx, p, itemRect direction x y width height pos
        (clipSize pos maxPos (requiredSize env direction width height item p)))]
    else []

/-- Origin of a rectangle across the layout axis. -/
def crossOrigin (direction : Int) (r : Rect) : Int :=
  if direction = ContainerRow then r.x else r.y

/-- The `SetRect` calls of one `Draw` without the entry indices: item and
rectangle, in call order. -/
def placements {ι : Type} (res : DrawResult ι) : List (ι × Rect) :=
  res.rects.map fun c => c.2

/-- The items drawn by one `Draw`, in call order. -/
def drawnItems {ι : Type} (res : DrawResult ι) : List ι :=
  res.draws.map fun c => c.2

/-- Two loop states that differ at most in the entry indices recorded with
the calls. -/
def sameCalls {ι : Type} (a b : DrawState ι) : Prop :=
  a.pos = b.pos ∧ a.rects.map (fun c => c.2) = b.rects.map (fun c => c.2) ∧
    a.drawn.map (fun c => c.2) = b.drawn.map (fun c => c.2) ∧
    a.deferred.map (fun c => c.2) = b.deferred.map (fun c => c.2)

/-- One call of a method of the public interface that can change the
container, with its arguments. -/
inductive Call (ι : Type) where
  | addItem (item : Option ι) (fixedSize : Int) (focus : Bool)
  | removeItem (p : Option ι)
  | resizeItem (p : Option ι) (fixedSize : Int) (proportion : Int)
  | clear
  | setDirection (direction : Int)
  | setFullScreen (fullScreen : Bool)

/-- The container after one call; `none` would be a panic. -/
def call {ι : Type} [DecidableEq ι] (f : Container ι) : Call ι → Option (Container ι)
  | .addItem item fixedSize focus => some (AddItem f item fixedSize focus)
  | .removeItem p => RemoveItem f p
  | .resizeItem p fixedSize proportion => some (ResizeItem f p fixedSize proportion)
  | .clear => some (Clear f)
  | .setDirection direction => some (SetDirection f direction)
  | .setFullScreen fullScreen => some (SetFullScreen f fullScreen)

/-- The container after a sequence of calls, first call first. -/
def calls {ι : Type} [DecidableEq ι] : Container ι → List (Call ι) → Option (Container ι)
  | f, [] => some f
  | f, c :: cs =>
    match call f c with
    | some f2 => calls f2 cs
    | none => none

/-! ## Draw with 64-bit integers -/

/-- Smallest value of a 64-bit `int`. -/
def minInt64 : Int := -9223372036854775808

/-- Largest value of a 64-bit `int`. -/
def maxInt64 : Int := 9223372036854775807

/-- Result of a Go `int` addition or subtraction whose exact value is `n`:
the value wraps around at 64 bits. -/
def wrap64 (n : Int) : Int :=
  (n + 9223372036854775808) % 18446744073709551616 - 9223372036854775808

/-- The clipping of lines 155-157, computed as Go does. -/
def clipSize64 (pos maxPos size : Int) : Int :=
  if wrap64 (pos + size) > maxPos then wrap64 (maxPos - pos) else size

/-- One iteration of the loop of `Draw`, computed as Go does. -/
def drawEntry64 {ι : Type} (env : Primitives ι) (direction x y width height maxPos : Int)
    (idx : Nat) (item : containerItem ι) (st : DrawState ι) : DrawState ι × Bool :=
  match item.Item with
  | none =>
    (if item.FixedSize ≥ 0 then
        ⟨wrap64 (st.pos + item.FixedSize), st.rects, st.drawn, st.deferred⟩
     else st, false)
  | some p =>
    let size := clipSize64 st.pos maxPos (requiredSize env direction width height item p)
    let st1 : DrawState ι :=
      if size > 0 then
        let rects := st.rects ++ [(idx, p, itemRect direction x y width height st.pos size)]
        if env.HasFocus p then
          ⟨wrap64 (st.pos + size), rects, st.drawn, (idx, p) :: st.deferred⟩
        else ⟨wrap64 (st.pos + size), rects, st.drawn ++ [(idx, p)], st.deferred⟩
      else st
    (st1, decide (st1.pos > maxPos))

/-- The loop of `Draw`, computed as Go does. -/
def drawLoop64 {ι : Type} (env : Primitives ι) (direction x y width height maxPos : Int) :
    Nat → List (containerItem ι) → DrawState ι → DrawState ι
  | _, [], st => st
  | idx, item :: rest, st =>
    let r := drawEntry64 env direction x y width height maxPos idx item st
    if r.2 then r.1 else drawLoop64 env direction x y width height maxPos (idx + 1) rest r.1

/-- Cursor limit `maxPos` of `Draw`, computed as Go does. -/
def limitPos64 (direction x y width height : Int) : Int :=
  if direction = ContainerRow then wrap64 (y + height) else wrap64 (x + width)

/-- The part of `Draw` after `GetInnerRect` (lines 131-177), computed as Go
does on a 64-bit platform. The fields of `inner`, the fixed sizes and the
natural sizes are Go `int` values. -/
def drawItems64 {ι : Type} (env : Primitives ι) (direction : Int) (inner : Rect)
    (items : List (containerItem ι)) : DrawResult ι :=
  let st := drawLoop64 env direction inner.x inner.y inner.width inner.height
    (limitPos64 direction inner.x inner.y inner.width inner.height) 0 items
    ⟨startPos direction inner.x inner.y, [], [], []⟩
  ⟨st.rects, st.drawn ++ st.deferred⟩

/-! ## RemoveItem with the panic of an interface comparison -/

/-- Run-time panics of `RemoveItem`. -/
inductive Panic where
  | indexOutOfRange
  | uncomparable
deriving DecidableEq

/-- Whether `==` on two non-nil interface values panics: they hold values of
the same dynamic type and that type is not comparable (a struct with a slice
field, say). -/
structure Comparison (ι : Type) where
  panics : ι → ι → Bool

/-- Go `==` on two interface values; `none` is the run-time panic. -/
def ifaceEq {ι : Type} [DecidableEq ι] (C : Comparison ι) : Option ι → Option ι → Option Bool
  | some u, some v => if C.panics u v then none else some (decide (u = v))
  | some _, none => some false
  | none, some _ => some false
  | none, none => some true

/-- The loop of `RemoveItem` with both panics: an index outside the slice, and
the comparison `f.items[index].Item == p` on uncomparable values. -/
def removeLoopCmp {ι : Type} [DecidableEq ι] (C : Comparison ι) (p : Option ι) :
    Nat → List (containerItem ι) → Except Panic (List (containerItem ι))
  | 0, items => .ok items
  | index + 1, items =>
    match items[index]? with
    | none => .error .indexOutOfRange
    | some e =>
      match ifaceEq C e.Item p with
      | none => .error .uncomparable
      | some true => removeLoopCmp C p index (items.take index ++ items.drop (index + 1))
      | some false => removeLoopCmp C p index items

/-- Method `RemoveItem` with both panics. -/
def RemoveItemCmp {ι : Type} [DecidableEq ι] (C : Comparison ι) (f : Container ι)
    (p : Option ι) : Except Panic (Container ι) :=
  match removeLoopCmp C p f.items.length f.items with
  | .ok items => .ok ⟨items, f.direction, f.fullScreen, f.rect⟩
  | .error e => .error e

/-! ## RemoveItem -/

theorem removeLoop_eq {ι : Type} [DecidableEq ι] (p : Option ι) :
    ∀ (n : Nat) (items : List (containerItem ι)), n ≤ items.length →
      removeLoop p n items =
        some ((items.take n).filter (fun e => decide (e.Item ≠ p)) ++ items.drop n) := by
  intro n
  induction n with
  | zero => intro items _; simp [removeLoop]
  | succ n ih =>
    intro items hn
    have hlt : n < items.length := hn
    have hget : items[n]? = some items[n] := List.getElem?_eq_getElem hlt
    have htake : items.take (n + 1) = items.take n ++ [items[n]] := by
      rw [List.take_succ, hget]; rfl
    have hdrop : items.drop n = items[n] :: items.drop (n + 1) := by
      rw [List.drop_eq_getElem_cons hlt]
    have hlen : (items.take n).length = n := by
      rw [List.length_take]; omega
    rw [removeLoop, hget]
    simp only
    by_cases h : items[n].Item = p
    · rw [if_pos h, ih _ (by rw [List.length_append, hlen]; omega)]
      have h1 : (items.take n ++ items.drop (n + 1)).take n = items.take n := by
        rw [List.take_append_eq_append_take, hlen]; simp
      have h2 : (items.take n ++ items.drop (n + 1)).drop n = items.drop (n + 1) := by
        rw [List.drop_append_eq_append_drop, hlen]; simp
      rw [h1, h2, htake, List.filter_append]
      simp [h]
    · rw [if_neg h, ih _ (by omega), htake, List.filter_append, hdrop]
      simp [h]

theorem Focus_skip {ι : Type} (before rest : List (containerItem ι))
    (h : ∀ e ∈ before, e.Item = none ∨ e.Focus = false) :
    Focus (before ++ rest) = Focus rest := by
  induction before with
  | nil => rfl
  | cons e before ih =>
    have he := h e (List.mem_cons_self _ _)
    have ih2 := ih (fun e2 h2 => h e2 (List.mem_cons_of_mem _ h2))
    rw [List.cons_append, Focus]
    cases hI : e.Item with
    | none => simpa using ih2
    | some q =>
      have hF : e.Focus = false := by
        rcases he with he | he
        · rw [hI] at he; cases he
        · exact he
      simpa [hF] using ih2

/-- C5: `Focus` calls the delegate exactly once, with the item of the first
entry that has an item and the focus flag, whatever follows that entry; it
never calls the delegate when there is no such entry. -/
theorem Focus_first_attracting {ι : Type} (items : List (containerItem ι)) :
    (∀ (before after : List (containerItem ι)) (e : containerItem ι) (p : ι),
        items = before ++ e :: after → e.Item = some p → e.Focus = true →
        (∀ e2 ∈ before, e2.Item = none ∨ e2.Focus = false) → Focus items = [p]) ∧
      ((∀ e ∈ items, e.Item = none ∨ e.Focus = false) → Focus items = []) := by
  constructor
  · intro before after e p hitems hI hF hbefore
    rw [hitems, Focus_skip before _ hbefore, Focus]
    simp [hI, hF]
  · intro h
    have := Focus_skip items [] h
    rw [List.append_nil] at this
    rw [this]; rfl

theorem Focus_first_attracting_witness :
    Focus (ι := Nat)
        ([⟨some 1, 2, false⟩, ⟨none, 3, true⟩] ++ ⟨some 5, 1, true⟩ :: [⟨some 6, 1, true⟩]) = [5] ∧
      Focus (ι := Nat) [⟨some 1, 2, false⟩, ⟨none, 3, true⟩] = [] :=
  ⟨(Focus_first_attracting _).1 [⟨some 1, 2, false⟩, ⟨none, 3, true⟩] [⟨some 6, 1, true⟩]
      ⟨some 5, 1, true⟩ 5 rfl rfl rfl (by decide),
    (Focus_first_attracting _).2 (by decide)⟩

theorem HasFocus_iff {ι : Type} (env : Primitives ι) (items : List (containerItem ι)) :
    HasFocus env items = true ↔
      ∃ e ∈ items, ∃ p, e.Item = some p ∧ env.HasFocus p = true := by
  induction items with
  | nil => simp [HasFocus]
  | cons e rest ih =>
    rw [HasFocus]
    cases hI : e.Item with
    | none => simp [ih, hI]
    | some q =>
      by_cases hq : env.HasFocus q = true
      · simp only [hq, if_true, true_iff]
        exact ⟨e, List.mem_cons_self _ _, q, hI, hq⟩
      · simp [hq, ih, hI]

/-- C6: `HasFocus` is true exactly when some entry has an item that reports
focus; two entry lists with the same items in the same order give the same
answer, whatever their focus flags and fixed sizes. -/
theorem HasFocus_exists_child {ι : Type} (env : Primitives ι) (items : List (containerItem ι)) :
    (HasFocus env items = true ↔
        ∃ e ∈ items, ∃ p, e.Item = some p ∧ env.HasFocus p = true) ∧
      ∀ items2 : List (containerItem ι),
        items2.map (fun e => e.Item) = items.map (fun e => e.Item) →
          HasFocus env items2 = HasFocus env items := by
  refine ⟨HasFocus_iff env items, ?_⟩
  intro items2 h
  have key : ∀ l : List (containerItem ι),
      (HasFocus env l = true ↔ ∃ o ∈ l.map (fun e => e.Item), ∃ p, o = some p ∧
        env.HasFocus p = true) := by
    intro l
    rw [HasFocus_iff]
    constructor
    · rintro ⟨e, he, p, hp, hf⟩
      exact ⟨e.Item, List.mem_map_of_mem _ he, p, hp, hf⟩
    · rintro ⟨o, ho, p, hp, hf⟩
      obtain ⟨e, he, rfl⟩ := List.mem_map.1 ho
      exact ⟨e, he, p, hp, hf⟩
  have h1 := key items2
  have h2 := key items
  rw [h] at h1
  have h3 : HasFocus env items2 = true ↔ HasFocus env items = true := h1.trans h2.symm
  exact Bool.eq_iff_iff.2 h3

theorem HasFocus_exists_child_witness :
    HasFocus (ι := Nat) ⟨fun _ _ => 0, fun _ _ => 0, fun p => decide (p = 2)⟩
        [⟨some 1, 5, true⟩, ⟨some 2, -1, false⟩] =
      HasFocus (ι := Nat) ⟨fun _ _ => 0, fun _ _ => 0, fun p => decide (p = 2)⟩
        [⟨some 1, 0, false⟩, ⟨some 2, 7, true⟩] :=
  (HasFocus_exists_child _ [⟨some 1, 0, false⟩, ⟨some 2, 7, true⟩]).2
    [⟨some 1, 5, true⟩, ⟨some 2, -1, false⟩] rfl

/-! ## AddItem and ResizeItem -/

/-- C7: `AddItem` with an item present appends exactly one entry holding the
three arguments and keeps the existing entries; with an absent item it leaves
the entry list as it was; direction and full-screen flag never change. -/
theorem AddItem_appends_or_noop {ι : Type} (f : Container ι) (fixedSize : Int) (focus : Bool) :
    (∀ p : ι, (AddItem f (some p) fixedSize focus).items =
        f.items ++ [⟨some p, fixedSize, focus⟩]) ∧
      (AddItem f none fixedSize focus).items = f.items ∧
      ∀ item : Option ι, (AddItem f item fixedSize focus).direction = f.direction ∧
        (AddItem f item fixedSize focus).fullScreen = f.fullScreen := by
  refine ⟨fun p => rfl, rfl, ?_⟩
  intro item
  cases item <;> exact ⟨rfl, rfl⟩

/-- C8 (the code against its documentation): `AddItem` with a nil item returns
the container as it was, so no space is reserved. After `AddItem(nil, 3, _)`
and `AddItem(A, 2, _)` on a new container, `Draw` on the inner rectangle
`(0, 0, 10, 5)` puts `A` at `x = 0`, where it also is without the nil call,
and not at `x = 3`. -/
theorem AddItem_nil_reserves_nothing :
    (∀ (ι : Type) (f : Container ι) (n : Int) (focus : Bool), AddItem f none n focus = f) ∧
      (Draw (ι := Nat) ⟨fun _ _ => 0, fun _ _ => 0, fun _ => false⟩ id (80, 24)
          (AddItem (AddItem (NewContainer ⟨0, 0, 10, 5⟩) none 3 false) (some 7) 2 false)).2.rects =
        [(0, 7, ⟨0, 0, 2, 5⟩)] ∧
      (Draw (ι := Nat) ⟨fun _ _ => 0, fun _ _ => 0, fun _ => false⟩ id (80, 24)
          (AddItem (NewContainer ⟨0, 0, 10, 5⟩) (some 7) 2 false)).2.rects =
        [(0, 7, ⟨0, 0, 2, 5⟩)] := by
  refine ⟨fun _ _ _ _ => rfl, by decide, by decide⟩

theorem resizeItems_eq_map {ι : Type} [DecidableEq ι] (p : Option ι) (s : Int)
    (items : List (containerItem ι)) :
    resizeItems p s items =
      items.map (fun e => if e.Item = p then (⟨e.Item, s, e.Focus⟩ : containerItem ι) else e) := by
  induction items with
  | nil => rfl
  | cons e rest ih => rw [resizeItems, ih]; rfl

section Loop

variable {ι : Type} (env : Primitives ι) (direction x y width height maxPos : Int)

theorem entryRects_cases (idx : Nat) (item : containerItem ι) (pos : Int) :
    entryRects env direction x y width height maxPos idx item pos = [] ∨
      ∃ p r, entryRects env direction x y width height maxPos idx item pos = [(idx, p, r)] := by
  unfold entryRects
  cases item.Item with
  | none => exact Or.inl rfl
  | some p =>
    simp only
    split
    · exact Or.inr ⟨_, _, rfl⟩
    · exact Or.inl rfl

theorem drawEntry_rects (idx : Nat) (item : containerItem ι) (st : DrawState ι) :
    (drawEntry env direction x y width height maxPos idx item st).1.rects =
      st.rects ++ entryRects env direction x y width height maxPos idx item st.pos := by
  unfold drawEntry entryRects
  cases item.Item with
  | none => simp only; split <;> simp
  | some p =>
    simp only
    split
    · split <;> rfl
    · simp

theorem drawEntry_drawn (idx : Nat) (item : containerItem ι) (st : DrawState ι) :
    (drawEntry env direction x y width height maxPos idx item st).1.drawn =
      st.drawn ++ ((entryRects env direction x y width height maxPos idx item st.pos).filter
        (fun c => !env.HasFocus c.2.1)).map callOf := by
  unfold drawEntry entryRects
  cases item.Item with
  | none => simp only; split <;> simp
  | some p =>
    simp only
    split
    · cases hf : env.HasFocus p <;> simp [hf, callOf]
    · simp

theorem drawEntry_deferred (idx : Nat) (item : containerItem ι) (st : DrawState ι) :
    (drawEntry env direction x y width height maxPos idx item st).1.deferred =
      (((entryRects env direction x y width height maxPos idx item st.pos).filter
        (fun c => env.HasFocus c.2.1)).map callOf).reverse ++ st.deferred := by
  unfold drawEntry entryRects
  cases item.Item with
  | none => simp only; split <;> simp
  | some p =>
    simp only
    split
    · cases hf : env.HasFocus p <;> simp [hf, callOf]
    · simp

/-- What the loop adds to the state: the new `SetRect` calls carry increasing
entry indices from the range visited; the items without focus are drawn at
once and in that order, those with focus are pushed on the deferred stack. -/
theorem drawLoop_ext (items : List (containerItem ι)) :
    ∀ (idx : Nat) (st : DrawState ι), ∃ new : List (Nat × ι × Rect),
      (drawLoop env direction x y width height maxPos idx items st).rects = st.rects ++ new ∧
      (∀ c ∈ new, idx ≤ c.1 ∧ c.1 < idx + items.length) ∧
      (new.map Prod.fst).Pairwise (fun a b => a < b) ∧
      (drawLoop env direction x y width height maxPos idx items st).drawn =
        st.drawn ++ (new.filter (fun c => !env.HasFocus c.2.1)).map callOf ∧
      (drawLoop env direction x y width height maxPos idx items st).deferred =
        ((new.filter (fun c => env.HasFocus c.2.1)).map callOf).reverse ++ st.deferred := by
  induction items with
  | nil => intro idx st; exact ⟨[], by simp [drawLoop]⟩
  | cons e rest ih =>
    intro idx st
    have hr := drawEntry_rects env direction x y width height maxPos idx e st
    have hd := drawEntry_drawn env direction x y width height maxPos idx e st
    have hf := drawEntry_deferred env direction x y width height maxPos idx e st
    have hidx : ∀ c ∈ entryRects env direction x y width height maxPos idx e st.pos, c.1 = idx := by
      intro c hc
      rcases entryRects_cases env direction x y width height maxPos idx e st.pos with h | ⟨p, r, h⟩
      · rw [h] at hc; cases hc
      · rw [h] at hc; simp at hc; rw [hc]
    have hpw : ((entryRects env direction x y width height maxPos idx e st.pos).map
        Prod.fst).Pairwise (fun a b => a < b) := by
      rcases entryRects_cases env direction x y width height maxPos idx e st.pos with h | ⟨p, r, h⟩
      · rw [h]; simp
      · rw [h]; simp
    rw [drawLoop]
    by_cases hb : (drawEntry env direction x y width height maxPos idx e st).2 = true
    · rw [if_pos hb]
      refine ⟨_, hr, ?_, hpw, hd, hf⟩
      intro c hc
      rw [hidx c hc, List.length_cons]; omega
    · rw [if_neg hb]
      obtain ⟨new2, h1, h2, h3, h4, h5⟩ :=
        ih (idx + 1) (drawEntry env direction x y width height maxPos idx e st).1
      refine ⟨entryRects env direction x y width height maxPos idx e st.pos ++ new2,
        ?_, ?_, ?_, ?_, ?_⟩
      · rw [h1, hr, List.append_assoc]
      · intro c hc
        rw [List.length_cons]
        rcases List.mem_append.1 hc with hc | hc
        · rw [hidx c hc]; omega
        · have := h2 c hc; omega
      · rw [List.map_append, List.pairwise_append]
        refine ⟨hpw, h3, ?_⟩
        intro a ha b hb2
        obtain ⟨ca, hca, rfl⟩ := List.mem_map.1 ha
        obtain ⟨cb, hcb, rfl⟩ := List.mem_map.1 hb2
        rw [hidx ca hca]
        have := h2 cb hcb; omega
      · rw [h4, hd, List.filter_append, List.map_append, List.append_assoc]
      · rw [h5, hf, List.filter_append, List.map_append, List.reverse_append, List.append_assoc]

theorem stateAfter_drawLoop (items : List (containerItem ι)) :
    ∀ (idx : Nat) (st st2 : DrawState ι),
      stateAfter env direction x y width height maxPos idx items st = some st2 →
        drawLoop env direction x y width height maxPos idx items st = st2 := by
  induction items with
  | nil => intro idx st st2 h; simpa [stateAfter, drawLoop] using h
  | cons e rest ih =>
    intro idx st st2 h
    rw [stateAfter] at h
    rw [drawLoop]
    by_cases hb : (drawEntry env direction x y width height maxPos idx e st).2 = true
    · rw [if_pos hb] at h; cases h
    · rw [if_neg hb] at h ⊢; exact ih _ _ _ h

theorem drawLoop_append (before : List (containerItem ι)) :
    ∀ (rest : List (containerItem ι)) (idx : Nat) (st st2 : DrawState ι),
      stateAfter env direction x y width height maxPos idx before st = some st2 →
        drawLoop env direction x y width height maxPos idx (before ++ rest) st =
          drawLoop env direction x y width height maxPos (idx + before.length) rest st2 := by
  induction before with
  | nil =>
    intro rest idx st st2 h
    simp only [stateAfter, Option.some.injEq] at h
    subst h; simp
  | cons e before ih =>
    intro rest idx st st2 h
    rw [stateAfter] at h
    rw [List.cons_append, drawLoop]
    by_cases hb : (drawEntry env direction x y width height maxPos idx e st).2 = true
    · rw [if_pos hb] at h; cases h
    · rw [if_neg hb] at h ⊢
      rw [ih rest _ _ _ h, List.length_cons]
      congr 1; omega

theorem stateAfter_append (before : List (containerItem ι)) :
    ∀ (rest : List (containerItem ι)) (idx : Nat) (st st2 : DrawState ι),
      stateAfter env direction x y width height maxPos idx before st = some st2 →
        stateAfter env direction x y width height maxPos idx (before ++ rest) st =
          stateAfter env direction x y width height maxPos (idx + before.length) rest st2 := by
  induction before with
  | nil =>
    intro rest idx st st2 h
    simp only [stateAfter, Option.some.injEq] at h
    subst h; simp
  | cons e before ih =>
    intro rest idx st st2 h
    rw [stateAfter] at h
    rw [List.cons_append, stateAfter]
    by_cases hb : (drawEntry env direction x y width height maxPos idx e st).2 = true
    · rw [if_pos hb] at h; cases h
    · rw [if_neg hb] at h ⊢
      rw [ih rest _ _ _ h, List.length_cons]
      congr 1; omega

end Loop

/-! ## The cursor on entries that fit, and on a full container -/

section Cursor

variable {ι : Type} (env : Primitives ι) (direction x y width height maxPos : Int)

theorem sum_nonneg_of (l : List Int) (h : ∀ s ∈ l, 0 ≤ s) : 0 ≤ l.sum := by
  induction l with
  | nil => simp
  | cons a l ih =>
    rw [List.sum_cons]
    have h1 := h a (List.mem_cons_self _ _)
    have h2 := ih (fun s hs => h s (List.mem_cons_of_mem _ hs))
    omega

theorem requiredSizes_cons (e : containerItem ι) (rest : List (containerItem ι)) (p : ι)
    (hI : e.Item = some p) :
    requiredSizes env direction width height (e :: rest) =
      requiredSize env direction width height e p ::
        requiredSizes env direction width height rest := by
  simp [requiredSizes, hI]

theorem requiredSizes_append (l1 l2 : List (containerItem ι)) :
    requiredSizes env direction width height (l1 ++ l2) =
      requiredSizes env direction width height l1 ++
        requiredSizes env direction width height l2 := by
  simp [requiredSizes]

theorem drawEntry_fit (idx : Nat) (item : containerItem ι) (st : DrawState ι) (p : ι)
    (hI : item.Item = some p) (h0 : 0 ≤ requiredSize env direction width height item p)
    (hfit : st.pos + requiredSize env direction width height item p ≤ maxPos) :
    (drawEntry env direction x y width height maxPos idx item st).2 = false ∧
      (drawEntry env direction x y width height maxPos idx item st).1.pos =
        st.pos + requiredSize env direction width height item p ∧
      entryRects env direction x y width height maxPos idx item st.pos =
        if 0 < requiredSize env direction width height item p then
          [(idx, p, itemRect direction x y width height st.pos
            (requiredSize env direction width height item p))]
        else [] := by
  have hclip : clipSize st.pos maxPos (requiredSize env direction width height item p) =
      requiredSize env direction width height item p := by
    unfold clipSize; rw [if_neg (by omega)]
  unfold drawEntry entryRects
  rw [hI]
  simp only [hclip]
  generalize requiredSize env direction width height item p = r at *
  by_cases hr : 0 < r
  · cases hf : env.HasFocus p <;> simp [hr] <;> omega
  · have : r = 0 := by omega
    subst this
    simp; omega

theorem drawEntry_clip (idx : Nat) (item : containerItem ι) (st : DrawState ι) (p : ι)
    (hI : item.Item = some p) (hle : st.pos ≤ maxPos)
    (hover : maxPos < st.pos + requiredSize env direction width height item p) :
    (drawEntry env direction x y width height maxPos idx item st).2 = false ∧
      (drawEntry env direction x y width height maxPos idx item st).1.pos = maxPos ∧
      clipSize st.pos maxPos (requiredSize env direction width height item p) =
        maxPos - st.pos ∧
      entryRects env direction x y width height maxPos idx item st.pos =
        if 0 < maxPos - st.pos then
          [(idx, p, itemRect direction x y width height st.pos (maxPos - st.pos))]
        else [] := by
  have hclip : clipSize st.pos maxPos (requiredSize env direction width height item p) =
      maxPos - st.pos := by
    unfold clipSize; rw [if_pos (by omega)]
  unfold drawEntry entryRects
  rw [hI]
  simp only [hclip]
  by_cases hr : 0 < maxPos - st.pos
  · cases hf : env.HasFocus p <;> simp [hr]
  · have : st.pos = maxPos := by omega
    simp [this]

theorem stateAfter_fit (items : List (containerItem ι)) :
    ∀ (idx : Nat) (st : DrawState ι), (∀ e ∈ items, e.Item ≠ none) →
      (∀ s ∈ requiredSizes env direction width height items, 0 ≤ s) →
      st.pos + (requiredSizes env direction width height items).sum ≤ maxPos →
      ∃ st2, stateAfter env direction x y width height maxPos idx items st = some st2 ∧
        st2.pos = st.pos + (requiredSizes env direction width height items).sum := by
  induction items with
  | nil => intro idx st _ _ _; exact ⟨st, rfl, by simp [requiredSizes]⟩
  | cons e rest ih =>
    intro idx st hpres hnn hfit
    obtain ⟨p, hI⟩ := Option.ne_none_iff_exists'.1 (hpres e (List.mem_cons_self _ _))
    rw [requiredSizes_cons env direction width height e rest p hI] at hnn hfit ⊢
    rw [List.sum_cons] at hfit ⊢
    have h0 := hnn _ (List.mem_cons_self _ _)
    have hrest := sum_nonneg_of _ (fun s hs => hnn s (List.mem_cons_of_mem _ hs))
    obtain ⟨hb, hp, -⟩ := drawEntry_fit env direction x y width height maxPos idx e st p hI h0
      (by omega)
    obtain ⟨st2, h1, h2⟩ := ih (idx + 1)
      (drawEntry env direction x y width height maxPos idx e st).1
      (fun e2 h2 => hpres e2 (List.mem_cons_of_mem _ h2))
      (fun s hs => hnn s (List.mem_cons_of_mem _ hs)) (by rw [hp]; omega)
    refine ⟨st2, ?_, by rw [h2, hp]; omega⟩
    rw [stateAfter, hb]
    exact h1

theorem drawLoop_full (items : List (containerItem ι)) :
    ∀ (idx : Nat) (st : DrawState ι), (∀ e ∈ items, e.Item ≠ none) →
      (∀ s ∈ requiredSizes env direction width height items, 0 < s) → st.pos = maxPos →
      drawLoop env direction x y width height maxPos idx items st = st := by
  induction items with
  | nil => intro idx st _ _ _; rfl
  | cons e rest ih =>
    intro idx st hpres hpos hfull
    obtain ⟨p, hI⟩ := Option.ne_none_iff_exists'.1 (hpres e (List.mem_cons_self _ _))
    rw [requiredSizes_cons env direction width height e rest p hI] at hpos
    have h0 := hpos _ (List.mem_cons_self _ _)
    have hstep : drawEntry env direction x y width height maxPos idx e st = (st, false) := by
      have hclip : clipSize st.pos maxPos (requiredSize env direction width height e p) = 0 := by
        unfold clipSize; rw [if_pos (by omega)]; omega
      unfold drawEntry
      rw [hI]
      simp only [hclip]
      simp [hfull]
    rw [drawLoop, hstep]
    exact ih (idx + 1) st (fun e2 h2 => hpres e2 (List.mem_cons_of_mem _ h2))
      (fun s hs => hpos s (List.mem_cons_of_mem _ hs)) hfull

theorem itemRect_axis (hdir : direction = ContainerRow ∨ direction = ContainerColumn)
    (pos size : Int) :
    axisOrigin direction (itemRect direction x y width height pos size) = pos ∧
      axisExtent direction (itemRect direction x y width height pos size) = size := by
  rcases hdir with h | h <;> subst h <;>
    simp [axisOrigin, axisExtent, itemRect, ContainerRow, ContainerColumn]

theorem drawEntry_pos_extent (hdir : direction = ContainerRow ∨ direction = ContainerColumn)
    (idx : Nat) (item : containerItem ι) (st : DrawState ι) (hI : item.Item ≠ none) :
    (drawEntry env direction x y width height maxPos idx item st).1.pos =
      st.pos + ((entryRects env direction x y width height maxPos idx item st.pos).map
        (fun c => axisExtent direction c.2.2)).sum := by
  obtain ⟨p, hp⟩ := Option.ne_none_iff_exists'.1 hI
  unfold drawEntry entryRects
  rw [hp]
  simp only
  by_cases hs : clipSize st.pos maxPos (requiredSize env direction width height item p) > 0
  · rw [if_pos hs, if_pos hs]
    have := (itemRect_axis direction x y width height hdir st.pos
      (clipSize st.pos maxPos (requiredSize env direction width height item p))).2
    cases hf : env.HasFocus p <;> simp [this]
  · rw [if_neg hs, if_neg hs]; simp

theorem drawLoop_pos_extent (hdir : direction = ContainerRow ∨ direction = ContainerColumn)
    (items : List (containerItem ι)) :
    ∀ (idx : Nat) (st : DrawState ι), (∀ e ∈ items, e.Item ≠ none) →
      (drawLoop env direction x y width height maxPos idx items st).pos -
          ((drawLoop env direction x y width height maxPos idx items st).rects.map
            (fun c => axisExtent direction c.2.2)).sum =
        st.pos - (st.rects.map (fun c => axisExtent direction c.2.2)).sum := by
  induction items with
  | nil => intro idx st _; rfl
  | cons e rest ih =>
    intro idx st hpres
    have h1 := drawEntry_pos_extent env direction x y width height maxPos hdir idx e st
      (hpres e (List.mem_cons_self _ _))
    have h2 := drawEntry_rects env direction x y width height maxPos idx e st
    have hstep : (drawEntry env direction x y width height maxPos idx e st).1.pos -
        ((drawEntry env direction x y width height maxPos idx e st).1.rects.map
          (fun c => axisExtent direction c.2.2)).sum =
        st.pos - (st.rects.map (fun c => axisExtent direction c.2.2)).sum := by
      rw [h1, h2, List.map_append, List.sum_append]; omega
    rw [drawLoop]
    by_cases hb : (drawEntry env direction x y width height maxPos idx e st).2 = true
    · rw [if_pos hb]; exact hstep
    · rw [if_neg hb, ih _ _ (fun e2 h => hpres e2 (List.mem_cons_of_mem _ h))]
      exact hstep

end Cursor

/-! ## Draw on the whole entry list -/

section DrawItems

variable {ι : Type} (env : Primitives ι) (direction : Int) (inner : Rect)

/-- The calls of `Draw` listed from its `SetRect` calls. -/
theorem drawItems_calls (items : List (containerItem ι)) :
    ((drawItems env direction inner items).rects.map Prod.fst).Pairwise (fun a b => a < b) ∧
      (∀ c ∈ (drawItems env direction inner items).rects, c.1 < items.length) ∧
      (drawItems env direction inner items).draws =
        ((drawItems env direction inner items).rects.filter
            (fun c => !env.HasFocus c.2.1)).map callOf ++
          (((drawItems env direction inner items).rects.filter
            (fun c => env.HasFocus c.2.1)).map callOf).reverse := by
  obtain ⟨new, h1, h2, h3, h4, h5⟩ :=
    drawLoop_ext env direction inner.x inner.y inner.width inner.height
      (limitPos direction inner.x inner.y inner.width inner.height) items 0
      ⟨startPos direction inner.x inner.y, [], [], []⟩
  simp only [List.nil_append, List.append_nil] at h1 h4 h5
  unfold drawItems
  simp only
  rw [h1, h4, h5]
  refine ⟨h3, ?_, rfl⟩
  intro c hc
  have := h2 c hc
  omega

/-- The `SetRect` calls made for one entry are those of its iteration, run
from the state in which the loop reaches it. -/
theorem drawItems_rectsOf (before after : List (containerItem ι)) (e : containerItem ι)
    (st : DrawState ι) (h : reaches env direction inner before = some st) :
    rectsOf (drawItems env direction inner (before ++ e :: after)) before.length =
      entryRects env direction inner.x inner.y inner.width inner.height
        (limitPos direction inner.x inner.y inner.width inner.height) before.length e st.pos := by
  unfold reaches at h
  have hst := stateAfter_drawLoop _ _ _ _ _ _ _ _ _ _ _ h
  obtain ⟨new1, a1, a2, -, -, -⟩ :=
    drawLoop_ext env direction inner.x inner.y inner.width inner.height
      (limitPos direction inner.x inner.y inner.width inner.height) before 0
      ⟨startPos direction inner.x inner.y, [], [], []⟩
  rw [hst] at a1
  simp only [List.nil_append] at a1
  have hfil1 : st.rects.filter (fun c => decide (c.1 = before.length)) = [] := by
    rw [List.filter_eq_nil_iff]
    intro c hc
    rw [a1] at hc
    have := a2 c hc
    simp; omega
  have hfil2 : (entryRects env direction inner.x inner.y inner.width inner.height
      (limitPos direction inner.x inner.y inner.width inner.height) before.length e st.pos).filter
        (fun c => decide (c.1 = before.length)) =
      entryRects env direction inner.x inner.y inner.width inner.height
        (limitPos direction inner.x inner.y inner.width inner.height) before.length e st.pos := by
    rw [List.filter_eq_self]
    intro c hc
    rcases entryRects_cases env direction inner.x inner.y inner.width inner.height
      (limitPos direction inner.x inner.y inner.width inner.height) before.length e st.pos
      with h0 | ⟨p, r, h0⟩
    · rw [h0] at hc; cases hc
    · rw [h0] at hc; simp at hc; simp [hc]
  unfold rectsOf drawItems
  simp only
  rw [drawLoop_append _ _ _ _ _ _ _ _ _ _ _ _ h, drawLoop, Nat.zero_add]
  have hr := drawEntry_rects env direction inner.x inner.y inner.width inner.height
    (limitPos direction inner.x inner.y inner.width inner.height) before.length e st
  by_cases hb : (drawEntry env direction inner.x inner.y inner.width inner.height
      (limitPos direction inner.x inner.y inner.width inner.height) before.length e st).2 = true
  · rw [if_pos hb, hr, List.filter_append, hfil1, hfil2, List.nil_append]
  · rw [if_neg hb]
    obtain ⟨new2, b1, b2, -, -, -⟩ :=
      drawLoop_ext env direction inner.x inner.y inner.width inner.height
        (limitPos direction inner.x inner.y inner.width inner.height) after (before.length + 1)
        (drawEntry env direction inner.x inner.y inner.width inner.height
          (limitPos direction inner.x inner.y inner.width inner.height) before.length e st).1
    have hfil3 : new2.filter (fun c => decide (c.1 = before.length)) = [] := by
      rw [List.filter_eq_nil_iff]
      intro c hc
      have := b2 c hc
      simp; omega
    rw [b1, hr, List.filter_append, List.filter_append, hfil1, hfil2, hfil3]
    simp

theorem drawItems_draws_perm (items : List (containerItem ι)) :
    (drawItems env direction inner items).draws.Perm
      ((drawItems env direction inner items).rects.map callOf) := by
  obtain ⟨-, -, h3⟩ := drawItems_calls env direction inner items
  rw [h3]
  refine (List.Perm.append_left _ (List.reverse_perm _)).trans ?_
  rw [← List.map_append]
  refine List.Perm.map _ ?_
  refine List.perm_append_comm.trans ?_
  exact List.filter_append_perm _ _

theorem limitPos_eq :
    limitPos direction inner.x inner.y inner.width inner.height =
      axisOrigin direction inner + axisExtent direction inner := by
  unfold limitPos axisOrigin axisExtent
  split <;> rfl

theorem startPos_eq : startPos direction inner.x inner.y = axisOrigin direction inner := rfl

theorem reaches_fit (items : List (containerItem ι)) (hpres : ∀ e ∈ items, e.Item ≠ none)
    (hnn : ∀ s ∈ requiredSizes env direction inner.width inner.height items, 0 ≤ s)
    (hfit : (requiredSizes env direction inner.width inner.height items).sum ≤
      axisExtent direction inner) :
    ∃ st, reaches env direction inner items = some st ∧
      st.pos = axisOrigin direction inner +
        (requiredSizes env direction inner.width inner.height items).sum := by
  unfold reaches
  have := stateAfter_fit env direction inner.x inner.y inner.width inner.height
    (limitPos direction inner.x inner.y inner.width inner.height) items 0
    ⟨startPos direction inner.x inner.y, [], [], []⟩ hpres hnn
    (by rw [limitPos_eq, startPos_eq]; show axisOrigin direction inner + _ ≤ _; omega)
  rw [startPos_eq] at this ⊢
  exact this

/-- Overflow clipping in the unbounded computation: direction Row or Column,
every entry with an item and a positive
required size (`FixedSize` when `≥ 0`, the natural size otherwise), `e` the
first entry at which the running sum of required sizes exceeds the inner
extent `E`, `S` the sum before `e`. Then every entry before `e` is assigned one
rectangle of its full required size at the inner start plus the sum before it;
the loop reaches `e` and the size it assigns to `e` is `E - S`, which gives
`e` one rectangle of that extent at the inner start plus `S` when `E - S > 0`
and none when `E - S = 0`; no entry after `e` is assigned a rectangle or drawn;
the extents assigned sum to `E`. -/
theorem Draw_overflow_clipped (hdir : direction = ContainerRow ∨ direction = ContainerColumn)
    (before after : List (containerItem ι)) (e : containerItem ι) (p : ι)
    (hpres : ∀ e2 ∈ before ++ e :: after, e2.Item ≠ none)
    (hpos : ∀ s ∈ requiredSizes env direction inner.width inner.height (before ++ e :: after),
      0 < s)
    (hI : e.Item = some p)
    (hk1 : (requiredSizes env direction inner.width inner.height before).sum ≤
      axisExtent direction inner)
    (hk2 : axisExtent direction inner <
      (requiredSizes env direction inner.width inner.height before).sum +
        requiredSize env direction inner.width inner.height e p) :
    (∀ (b1 b2 : List (containerItem ι)) (e1 : containerItem ι) (p1 : ι),
        before = b1 ++ e1 :: b2 → e1.Item = some p1 →
        ∃ r, rectsOf (drawItems env direction inner (before ++ e :: after)) b1.length =
            [(b1.length, p1, r)] ∧
          axisOrigin direction r = axisOrigin direction inner +
            (requiredSizes env direction inner.width inner.height b1).sum ∧
          axisExtent direction r = requiredSize env direction inner.width inner.height e1 p1) ∧
      (∃ st, reaches env direction inner before = some st ∧
        clipSize st.pos (limitPos direction inner.x inner.y inner.width inner.height)
            (requiredSize env direction inner.width inner.height e p) =
          axisExtent direction inner -
            (requiredSizes env direction inner.width inner.height before).sum) ∧
      (0 < axisExtent direction inner -
          (requiredSizes env direction inner.width inner.height before).sum →
        ∃ r, rectsOf (drawItems env direction inner (before ++ e :: after)) before.length =
            [(before.length, p, r)] ∧
          axisOrigin direction r = axisOrigin direction inner +
            (requiredSizes env direction inner.width inner.height before).sum ∧
          axisExtent direction r = axisExtent direction inner -
            (requiredSizes env direction inner.width inner.height before).sum) ∧
      (axisExtent direction inner -
          (requiredSizes env direction inner.width inner.height before).sum = 0 →
        rectsOf (drawItems env direction inner (before ++ e :: after)) before.length = []) ∧
      (∀ c ∈ (drawItems env direction inner (before ++ e :: after)).rects,
        c.1 ≤ before.length) ∧
      (∀ d ∈ (drawItems env direction inner (before ++ e :: after)).draws,
        d.1 ≤ before.length) ∧
      ((drawItems env direction inner (before ++ e :: after)).rects.map
        (fun c => axisExtent direction c.2.2)).sum = axisExtent direction inner := by
  have hsplit : requiredSizes env direction inner.width inner.height (before ++ e :: after) =
      requiredSizes env direction inner.width inner.height before ++
        (requiredSize env direction inner.width inner.height e p ::
          requiredSizes env direction inner.width inner.height after) := by
    rw [requiredSizes_append, requiredSizes_cons env direction _ _ e after p hI]
  rw [hsplit] at hpos
  have hposb : ∀ s ∈ requiredSizes env direction inner.width inner.height before, 0 < s :=
    fun s hs => hpos s (List.mem_append_left _ hs)
  have hposa : ∀ s ∈ requiredSizes env direction inner.width inner.height after, 0 < s :=
    fun s hs => hpos s (List.mem_append_right _ (List.mem_cons_of_mem _ hs))
  have hpresb : ∀ e2 ∈ before, e2.Item ≠ none := fun e2 h => hpres e2 (List.mem_append_left _ h)
  have hpresa : ∀ e2 ∈ after, e2.Item ≠ none :=
    fun e2 h => hpres e2 (List.mem_append_right _ (List.mem_cons_of_mem _ h))
  obtain ⟨st, hst, hstpos⟩ := reaches_fit env direction inner before hpresb
    (fun s hs => le_of_lt (hposb s hs)) hk1
  obtain ⟨hb, hp, hclip, hrects⟩ := drawEntry_clip env direction inner.x inner.y inner.width
    inner.height (limitPos direction inner.x inner.y inner.width inner.height) before.length e
    st p hI (by rw [limitPos_eq, hstpos]; omega) (by rw [limitPos_eq, hstpos]; omega)
  have hrem : limitPos direction inner.x inner.y inner.width inner.height - st.pos =
      axisExtent direction inner -
        (requiredSizes env direction inner.width inner.height before).sum := by
    rw [limitPos_eq, hstpos]; omega
  rw [hrem] at hclip hrects
  -- the state after `e`, and the loop after it
  have hst2 : stateAfter env direction inner.x inner.y inner.width inner.height
      (limitPos direction inner.x inner.y inner.width inner.height) 0 (before ++ [e])
      ⟨startPos direction inner.x inner.y, [], [], []⟩ =
      some (drawEntry env direction inner.x inner.y inner.width inner.height
        (limitPos direction inner.x inner.y inner.width inner.height) before.length e st).1 := by
    rw [stateAfter_append _ _ _ _ _ _ _ _ _ _ _ _ hst, Nat.zero_add, stateAfter, hb]
    rfl
  have hres : drawItems env direction inner (before ++ e :: after) =
      drawItems env direction inner (before ++ [e]) := by
    have hl : before ++ e :: after = (before ++ [e]) ++ after := by simp
    unfold drawItems
    simp only
    rw [hl, drawLoop_append _ _ _ _ _ _ _ _ _ _ _ _ hst2,
      drawLoop_full env direction inner.x inner.y inner.width inner.height _ after _ _ hpresa
        hposa hp,
      stateAfter_drawLoop _ _ _ _ _ _ _ _ _ _ _ hst2]
  have hidx : ∀ c ∈ (drawItems env direction inner (before ++ e :: after)).rects,
      c.1 ≤ before.length := by
    intro c hc
    rw [hres] at hc
    have := (drawItems_calls env direction inner (before ++ [e])).2.1 c hc
    rw [List.length_append] at this
    simp at this; omega
  refine ⟨?_, ⟨st, hst, hclip⟩, ?_, ?_, hidx, ?_, ?_⟩
  · intro b1 b2 e1 p1 hbef hI1
    subst hbef
    have hs1 : requiredSizes env direction inner.width inner.height (b1 ++ e1 :: b2) =
        requiredSizes env direction inner.width inner.height b1 ++
          (requiredSize env direction inner.width inner.height e1 p1 ::
            requiredSizes env direction inner.width inner.height b2) := by
      rw [requiredSizes_append, requiredSizes_cons env direction _ _ e1 b2 p1 hI1]
    rw [hs1] at hposb hk1
    rw [List.sum_append, List.sum_cons] at hk1
    have h1 : ∀ s ∈ requiredSizes env direction inner.width inner.height b1, 0 < s :=
      fun s hs => hposb s (List.mem_append_left _ hs)
    have h2 : 0 ≤ (requiredSizes env direction inner.width inner.height b2).sum :=
      sum_nonneg_of _ (fun s hs =>
        le_of_lt (hposb s (List.mem_append_right _ (List.mem_cons_of_mem _ hs))))
    have h3 : 0 < requiredSize env direction inner.width inner.height e1 p1 :=
      hposb _ (List.mem_append_right _ (List.mem_cons_self _ _))
    obtain ⟨st1, hst1, hst1pos⟩ := reaches_fit env direction inner b1
      (fun e2 h => hpresb e2 (List.mem_append_left _ h)) (fun s hs => le_of_lt (h1 s hs))
      (by omega)
    obtain ⟨-, -, hr1⟩ := drawEntry_fit env direction inner.x inner.y inner.width inner.height
      (limitPos direction inner.x inner.y inner.width inner.height) b1.length e1 st1 p1 hI1
      (le_of_lt h3) (by rw [limitPos_eq, hst1pos]; omega)
    have hl : (b1 ++ e1 :: b2) ++ e :: after = b1 ++ e1 :: (b2 ++ e :: after) := by simp
    rw [hl, drawItems_rectsOf env direction inner b1 _ e1 st1 hst1, hr1, if_pos h3]
    have hax := itemRect_axis direction inner.x inner.y inner.width inner.height hdir st1.pos
      (requiredSize env direction inner.width inner.height e1 p1)
    exact ⟨_, rfl, by rw [hax.1, hst1pos], hax.2⟩
  · intro h0
    rw [drawItems_rectsOf env direction inner before after e st hst, hrects, if_pos h0]
    have hax := itemRect_axis direction inner.x inner.y inner.width inner.height hdir st.pos
      (axisExtent direction inner -
        (requiredSizes env direction inner.width inner.height before).sum)
    exact ⟨_, rfl, by rw [hax.1, hstpos], hax.2⟩
  · intro h0
    rw [drawItems_rectsOf env direction inner before after e st hst, hrects, if_neg (by omega)]
  · intro d hd
    have hd2 := (drawItems_draws_perm env direction inner (before ++ e :: after)).subset hd
    obtain ⟨c, hc, rfl⟩ := List.mem_map.1 hd2
    exact hidx c hc
  · have hinv := drawLoop_pos_extent env direction inner.x inner.y inner.width inner.height
      (limitPos direction inner.x inner.y inner.width inner.height) hdir (before ++ [e]) 0
      ⟨startPos direction inner.x inner.y, [], [], []⟩
      (fun e2 h => hpres e2 (by
        rcases List.mem_append.1 h with h | h
        · exact List.mem_append_left _ h
        · rw [List.mem_singleton] at h; subst h
          exact List.mem_append_right _ (List.mem_cons_self _ _)))
    rw [stateAfter_drawLoop _ _ _ _ _ _ _ _ _ _ _ hst2, hp] at hinv
    change _ = axisOrigin direction inner - _ at hinv
    have hlim := limitPos_eq direction inner
    have hrr : (drawItems env direction inner (before ++ e :: after)).rects =
        (drawEntry env direction inner.x inner.y inner.width inner.height
          (limitPos direction inner.x inner.y inner.width inner.height) before.length e
            st).1.rects := by
      rw [hres]
      unfold drawItems
      simp only
      rw [stateAfter_drawLoop _ _ _ _ _ _ _ _ _ _ _ hst2]
    rw [hrr]
    simp only [List.map_nil, List.sum_nil] at hinv
    omega

theorem Draw_overflow_clipped_witness :
    (drawItems (ι := Nat) ⟨fun _ _ => 4, fun _ _ => 4, fun _ => false⟩ ContainerColumn
        ⟨0, 0, 10, 5⟩
        ([⟨some 1, 3, false⟩, ⟨some 2, -1, false⟩] ++ ⟨some 3, 10, false⟩ :: [])).rects =
        [(0, 1, ⟨0, 0, 3, 5⟩), (1, 2, ⟨3, 0, 4, 5⟩), (2, 3, ⟨7, 0, 3, 5⟩)] ∧
      ∃ r, rectsOf (drawItems (ι := Nat) ⟨fun _ _ => 4, fun _ _ => 4, fun _ => false⟩
            ContainerColumn ⟨0, 0, 10, 5⟩
            ([⟨some 1, 3, false⟩, ⟨some 2, -1, false⟩] ++ ⟨some 3, 10, false⟩ :: [])) 2 =
          [(2, 3, r)] ∧
        axisOrigin ContainerColumn r = 7 ∧ axisExtent ContainerColumn r = 3 :=
  ⟨by decide,
    (Draw_overflow_clipped (ι := Nat) ⟨fun _ _ => 4, fun _ _ => 4, fun _ => false⟩
      ContainerColumn ⟨0, 0, 10, 5⟩ (Or.inr rfl)
      [⟨some 1, 3, false⟩, ⟨some 2, -1, false⟩] [] ⟨some 3, 10, false⟩ 3
      (by decide) (by decide) rfl (by decide) (by decide)).2.2.1 (by decide)⟩

/-- C10: the `Draw` calls of one `Draw` split into a first part, made on items
that reported no focus, in increasing entry order, and a second part, made on
items that reported focus; each entry that was assigned a rectangle is drawn
once and nothing else is drawn. -/
theorem Draw_focused_last (items : List (containerItem ι)) :
    ∃ A B : List (Nat × ι),
      (drawItems env direction inner items).draws = A ++ B ∧
      (∀ d ∈ A, env.HasFocus d.2 = false) ∧
      (∀ d ∈ B, env.HasFocus d.2 = true) ∧
      (A.map Prod.fst).Pairwise (fun a b => a < b) ∧
      (drawItems env direction inner items).draws.Perm
        ((drawItems env direction inner items).rects.map callOf) := by
  obtain ⟨h1, -, h3⟩ := drawItems_calls env direction inner items
  refine ⟨_, _, h3, ?_, ?_, ?_, drawItems_draws_perm env direction inner items⟩
  · intro d hd
    obtain ⟨c, hc, rfl⟩ := List.mem_map.1 hd
    have := (List.mem_filter.1 hc).2
    simpa [callOf] using this
  · intro d hd
    obtain ⟨c, hc, rfl⟩ := List.mem_map.1 (List.mem_reverse.1 hd)
    have := (List.mem_filter.1 hc).2
    simpa [callOf] using this
  · have hsub : (((drawItems env direction inner items).rects.filter
        (fun c => !env.HasFocus c.2.1)).map callOf).map Prod.fst =
        ((drawItems env direction inner items).rects.filter
          (fun c => !env.HasFocus c.2.1)).map Prod.fst := by
      rw [List.map_map]; rfl
    rw [hsub]
    exact List.Pairwise.sublist (List.Sublist.map _ (List.filter_sublist _)) h1

end DrawItems

/-! ## Geometry of the rectangles, spacers and skipped entries -/

section Geometry

variable {ι : Type} (env : Primitives ι) (direction x y width height maxPos : Int)

theorem entryRects_mem (idx : Nat) (item : containerItem ι) (pos : Int) (c : Nat × ι × Rect)
    (hc : c ∈ entryRects env direction x y width height maxPos idx item pos) :
    ∃ p, item.Item = some p ∧
      0 < clipSize pos maxPos (requiredSize env direction width height item p) ∧
      c = (idx, p, itemRect direction x y width height pos
        (clipSize pos maxPos (requiredSize env direction width height item p))) := by
  unfold entryRects at hc
  cases hI : item.Item with
  | none => rw [hI] at hc; cases hc
  | some p =>
    rw [hI] at hc
    simp only at hc
    by_cases hs : clipSize pos maxPos (requiredSize env direction width height item p) > 0
    · rw [if_pos hs, List.mem_singleton] at hc
      exact ⟨p, rfl, hs, hc⟩
    · rw [if_neg hs] at hc; cases hc

theorem clipSize_le (pos size : Int) : pos + clipSize pos maxPos size ≤ maxPos := by
  unfold clipSize
  split <;> omega

theorem drawEntry_none (idx : Nat) (item : containerItem ι) (st : DrawState ι)
    (hI : item.Item = none) :
    drawEntry env direction x y width height maxPos idx item st =
      (if item.FixedSize ≥ 0 then ⟨st.pos + item.FixedSize, st.rects, st.drawn, st.deferred⟩
        else st, false) := by
  unfold drawEntry
  rw [hI]

theorem drawEntry_skip (idx : Nat) (item : containerItem ι) (st : DrawState ι) (p : ι)
    (hI : item.Item = some p)
    (hs : clipSize st.pos maxPos (requiredSize env direction width height item p) ≤ 0) :
    drawEntry env direction x y width height maxPos idx item st =
      (st, decide (st.pos > maxPos)) := by
  unfold drawEntry
  rw [hI]
  simp only
  rw [if_neg (by omega)]

theorem drawEntry_pos (idx : Nat) (item : containerItem ι) (st : DrawState ι) :
    st.pos ≤ (drawEntry env direction x y width height maxPos idx item st).1.pos ∧
      ∀ p, item.Item = some p →
        0 < clipSize st.pos maxPos (requiredSize env direction width height item p) →
        (drawEntry env direction x y width height maxPos idx item st).1.pos =
          st.pos + clipSize st.pos maxPos (requiredSize env direction width height item p) := by
  cases hI : item.Item with
  | none =>
    rw [drawEntry_none env direction x y width height maxPos idx item st hI]
    refine ⟨?_, fun p hp => by cases hp⟩
    by_cases h : item.FixedSize ≥ 0
    · rw [if_pos h]; show st.pos ≤ st.pos + item.FixedSize; omega
    · rw [if_neg h]
  | some q =>
    by_cases hs : clipSize st.pos maxPos (requiredSize env direction width height item q) > 0
    · have hpos : (drawEntry env direction x y width height maxPos idx item st).1.pos =
          st.pos + clipSize st.pos maxPos (requiredSize env direction width height item q) := by
        unfold drawEntry
        rw [hI]
        simp only
        rw [if_pos hs]
        cases env.HasFocus q <;> rfl
      refine ⟨by rw [hpos]; omega, ?_⟩
      intro p hp _
      cases hp
      exact hpos
    · rw [drawEntry_skip env direction x y width height maxPos idx item st q hI (by omega)]
      refine ⟨le_refl _, ?_⟩
      intro p hp h0
      cases hp
      exact absurd h0 hs

/-- Every rectangle added by the loop lies between the cursor at the start
and the cursor at the end, ends at or before the limit, has a positive extent
along the layout axis and the inner origin and extent across it; each starts
where an earlier one ends, or later. -/
theorem drawLoop_geom (hdir : direction = ContainerRow ∨ direction = ContainerColumn)
    (items : List (containerItem ι)) :
    ∀ (idx : Nat) (st : DrawState ι), ∃ new : List (Nat × ι × Rect),
      (drawLoop env direction x y width height maxPos idx items st).rects = st.rects ++ new ∧
      st.pos ≤ (drawLoop env direction x y width height maxPos idx items st).pos ∧
      (∀ c ∈ new, st.pos ≤ axisOrigin direction c.2.2 ∧ 0 < axisExtent direction c.2.2 ∧
        axisOrigin direction c.2.2 + axisExtent direction c.2.2 ≤ maxPos ∧
        axisOrigin direction c.2.2 + axisExtent direction c.2.2 ≤
          (drawLoop env direction x y width height maxPos idx items st).pos ∧
        crossOrigin direction c.2.2 = crossOrigin direction ⟨x, y, width, height⟩ ∧
        crossExtent direction c.2.2 = crossExtent direction ⟨x, y, width, height⟩) ∧
      new.Pairwise (fun a b =>
        axisOrigin direction a.2.2 + axisExtent direction a.2.2 ≤ axisOrigin direction b.2.2) := by
  induction items with
  | nil => intro idx st; exact ⟨[], by simp [drawLoop]⟩
  | cons e rest ih =>
    intro idx st
    have hr := drawEntry_rects env direction x y width height maxPos idx e st
    obtain ⟨hmono, hposeq⟩ := drawEntry_pos env direction x y width height maxPos idx e st
    have hone : ∀ c ∈ entryRects env direction x y width height maxPos idx e st.pos,
        axisOrigin direction c.2.2 = st.pos ∧ 0 < axisExtent direction c.2.2 ∧
        axisOrigin direction c.2.2 + axisExtent direction c.2.2 =
          (drawEntry env direction x y width height maxPos idx e st).1.pos ∧
        (drawEntry env direction x y width height maxPos idx e st).1.pos ≤ maxPos ∧
        crossOrigin direction c.2.2 = crossOrigin direction ⟨x, y, width, height⟩ ∧
        crossExtent direction c.2.2 = crossExtent direction ⟨x, y, width, height⟩ := by
      intro c hc
      obtain ⟨p, hI, h0, rfl⟩ := entryRects_mem env direction x y width height maxPos idx e
        st.pos c hc
      have hax := itemRect_axis direction x y width height hdir st.pos
        (clipSize st.pos maxPos (requiredSize env direction width height e p))
      have hle := clipSize_le maxPos st.pos (requiredSize env direction width height e p)
      rw [hposeq p hI h0]
      refine ⟨hax.1, by rw [hax.2]; exact h0, by rw [hax.1, hax.2], hle, ?_, ?_⟩
      · rcases hdir with h | h <;> subst h <;>
          simp [crossOrigin, itemRect, ContainerRow, ContainerColumn]
      · rcases hdir with h | h <;> subst h <;>
          simp [crossExtent, itemRect, ContainerRow, ContainerColumn]
    have hpw : (entryRects env direction x y width height maxPos idx e st.pos).Pairwise
        (fun a b => axisOrigin direction a.2.2 + axisExtent direction a.2.2 ≤
          axisOrigin direction b.2.2) := by
      rcases entryRects_cases env direction x y width height maxPos idx e st.pos with h | ⟨p, r, h⟩
      · rw [h]; exact List.Pairwise.nil
      · rw [h]; exact List.pairwise_singleton _ _
    rw [drawLoop]
    by_cases hb : (drawEntry env direction x y width height maxPos idx e st).2 = true
    · rw [if_pos hb]
      refine ⟨_, hr, hmono, ?_, hpw⟩
      intro c hc
      obtain ⟨h1, h2, h3, h4, h5, h6⟩ := hone c hc
      exact ⟨by omega, h2, by omega, by omega, h5, h6⟩
    · rw [if_neg hb]
      obtain ⟨new2, g1, g2, g3, g4⟩ :=
        ih (idx + 1) (drawEntry env direction x y width height maxPos idx e st).1
      refine ⟨entryRects env direction x y width height maxPos idx e st.pos ++ new2,
        by rw [g1, hr, List.append_assoc], by omega, ?_, ?_⟩
      · intro c hc
        rcases List.mem_append.1 hc with hc | hc
        · obtain ⟨h1, h2, h3, h4, h5, h6⟩ := hone c hc
          exact ⟨by omega, h2, by omega, by omega, h5, h6⟩
        · obtain ⟨h1, h2, h3, h4, h5, h6⟩ := g3 c hc
          exact ⟨by omega, h2, h3, h4, h5, h6⟩
      · rw [List.pairwise_append]
        refine ⟨hpw, g4, ?_⟩
        intro a ha b hb2
        have h1 := (hone a ha).2.2.1
        have h2 := (g3 b hb2).1
        omega

theorem drawEntry_same (idx idx2 : Nat) (item : containerItem ι) (a b : DrawState ι)
    (h : sameCalls a b) :
    sameCalls (drawEntry env direction x y width height maxPos idx item a).1
        (drawEntry env direction x y width height maxPos idx2 item b).1 ∧
      (drawEntry env direction x y width height maxPos idx item a).2 =
        (drawEntry env direction x y width height maxPos idx2 item b).2 := by
  obtain ⟨h1, h2, h3, h4⟩ := h
  unfold drawEntry
  cases item.Item with
  | none =>
    simp only
    by_cases hf : item.FixedSize ≥ 0
    · rw [if_pos hf, if_pos hf]
      exact ⟨⟨by simp [h1], h2, h3, h4⟩, trivial⟩
    · rw [if_neg hf, if_neg hf]
      exact ⟨⟨h1, h2, h3, h4⟩, trivial⟩
  | some p =>
    simp only
    rw [← h1]
    by_cases hs : clipSize a.pos maxPos (requiredSize env direction width height item p) > 0
    · rw [if_pos hs, if_pos hs]
      cases hfoc : env.HasFocus p
      · simp only [Bool.false_eq_true, if_false]
        refine ⟨⟨rfl, ?_, ?_, h4⟩, trivial⟩
        · simp [h1, h2]
        · simp [h3]
      · simp only [if_true]
        refine ⟨⟨rfl, ?_, h3, ?_⟩, trivial⟩
        · simp [h1, h2]
        · simp [h4]
    · rw [if_neg hs, if_neg hs]
      exact ⟨⟨h1, h2, h3, h4⟩, by rw [h1]⟩

theorem drawLoop_same (items : List (containerItem ι)) :
    ∀ (idx idx2 : Nat) (a b : DrawState ι), sameCalls a b →
      sameCalls (drawLoop env direction x y width height maxPos idx items a)
        (drawLoop env direction x y width height maxPos idx2 items b) := by
  induction items with
  | nil => intro idx idx2 a b h; exact h
  | cons e rest ih =>
    intro idx idx2 a b h
    obtain ⟨h1, h2⟩ := drawEntry_same env direction x y width height maxPos idx idx2 e a b h
    rw [drawLoop, drawLoop, ← h2]
    by_cases hb : (drawEntry env direction x y width height maxPos idx e a).2 = true
    · rw [if_pos hb, if_pos hb]; exact h1
    · rw [if_neg hb, if_neg hb]; exact ih _ _ _ _ h1

end Geometry

section Entries

variable {ι : Type} (env : Primitives ι) (direction : Int) (inner : Rect)

theorem drawsOf_eq_nil (items : List (containerItem ι)) (i : Nat)
    (h : rectsOf (drawItems env direction inner items) i = []) :
    drawsOf (drawItems env direction inner items) i = [] := by
  unfold drawsOf
  rw [List.filter_eq_nil_iff]
  intro d hd hi
  have hd2 := (drawItems_draws_perm env direction inner items).subset hd
  obtain ⟨c, hc, rfl⟩ := List.mem_map.1 hd2
  unfold rectsOf at h
  rw [List.filter_eq_nil_iff] at h
  exact h c hc (by simpa [callOf] using hi)

theorem reaches_snoc (before : List (containerItem ι)) (e : containerItem ι) (st : DrawState ι)
    (h : reaches env direction inner before = some st)
    (hb : (drawEntry env direction inner.x inner.y inner.width inner.height
      (limitPos direction inner.x inner.y inner.width inner.height) before.length e st).2 =
        false) :
    reaches env direction inner (before ++ [e]) =
      some (drawEntry env direction inner.x inner.y inner.width inner.height
        (limitPos direction inner.x inner.y inner.width inner.height) before.length e st).1 := by
  unfold reaches at h ⊢
  rw [stateAfter_append _ _ _ _ _ _ _ _ _ _ _ _ h, Nat.zero_add, stateAfter, hb]
  rfl

/-- C15: an entry with an item whose size after clipping is `≤ 0`, reached by
the loop in the state `st`, is assigned no rectangle and is not drawn. If the
cursor does not exceed the limit, the loop goes on to the next entry in the
same state `st`, and `Draw` makes the same `SetRect` calls (item and
rectangle) and the same `Draw` calls, in the same order, as on the entry list
without that entry. -/
theorem Draw_skips_nonpositive (before after : List (containerItem ι)) (e : containerItem ι)
    (p : ι) (st : DrawState ι) (hI : e.Item = some p)
    (hreach : reaches env direction inner before = some st)
    (hsize : clipSize st.pos (limitPos direction inner.x inner.y inner.width inner.height)
      (requiredSize env direction inner.width inner.height e p) ≤ 0) :
    rectsOf (drawItems env direction inner (before ++ e :: after)) before.length = [] ∧
      drawsOf (drawItems env direction inner (before ++ e :: after)) before.length = [] ∧
      (st.pos ≤ limitPos direction inner.x inner.y inner.width inner.height →
        reaches env direction inner (before ++ [e]) = some st ∧
        placements (drawItems env direction inner (before ++ e :: after)) =
          placements (drawItems env direction inner (before ++ after)) ∧
        drawnItems (drawItems env direction inner (before ++ e :: after)) =
          drawnItems (drawItems env direction inner (before ++ after))) := by
  have hskip := drawEntry_skip env direction inner.x inner.y inner.width inner.height
    (limitPos direction inner.x inner.y inner.width inner.height) before.length e st p hI hsize
  have hrects : rectsOf (drawItems env direction inner (before ++ e :: after))
      before.length = [] := by
    rw [drawItems_rectsOf env direction inner before after e st hreach]
    unfold entryRects
    rw [hI]
    simp only
    rw [if_neg (by omega)]
  refine ⟨hrects, drawsOf_eq_nil env direction inner _ _ hrects, ?_⟩
  intro hle
  have hflag : decide (st.pos > limitPos direction inner.x inner.y inner.width inner.height) =
      false := by
    simp; omega
  rw [hflag] at hskip
  have hsnoc := reaches_snoc env direction inner before e st hreach (by rw [hskip])
  rw [hskip] at hsnoc
  have hsame := drawLoop_same env direction inner.x inner.y inner.width inner.height
    (limitPos direction inner.x inner.y inner.width inner.height) after
    (0 + (before ++ [e]).length) (0 + before.length) st st ⟨rfl, rfl, rfl, rfl⟩
  have hl : before ++ e :: after = (before ++ [e]) ++ after := by simp
  unfold reaches at hsnoc hreach
  refine ⟨hsnoc, ?_, ?_⟩
  · unfold placements drawItems
    simp only
    rw [hl, drawLoop_append _ _ _ _ _ _ _ _ _ _ _ _ hsnoc,
      drawLoop_append _ _ _ _ _ _ _ _ _ _ _ _ hreach]
    exact hsame.2.1
  · unfold drawnItems drawItems
    simp only
    rw [hl, drawLoop_append _ _ _ _ _ _ _ _ _ _ _ _ hsnoc,
      drawLoop_append _ _ _ _ _ _ _ _ _ _ _ _ hreach, List.map_append, List.map_append,
      hsame.2.2.1, hsame.2.2.2]

theorem Draw_skips_nonpositive_witness :
    placements (drawItems (ι := Nat) ⟨fun _ _ => 0, fun _ _ => 0, fun _ => false⟩
        ContainerColumn ⟨0, 0, 10, 5⟩ ([] ++ ⟨some 1, 0, false⟩ :: [⟨some 2, 3, false⟩])) =
        placements (drawItems (ι := Nat) ⟨fun _ _ => 0, fun _ _ => 0, fun _ => false⟩
          ContainerColumn ⟨0, 0, 10, 5⟩ ([] ++ [⟨some 2, 3, false⟩])) ∧
      placements (drawItems (ι := Nat) ⟨fun _ _ => 0, fun _ _ => 0, fun _ => false⟩
        ContainerColumn ⟨0, 0, 10, 5⟩ ([] ++ ⟨some 1, 0, false⟩ :: [⟨some 2, 3, false⟩])) =
        [(2, ⟨0, 0, 3, 5⟩)] :=
  ⟨((Draw_skips_nonpositive (ι := Nat) ⟨fun _ _ => 0, fun _ _ => 0, fun _ => false⟩
      ContainerColumn ⟨0, 0, 10, 5⟩ [] [⟨some 2, 3, false⟩] ⟨some 1, 0, false⟩ 1
      ⟨0, [], [], []⟩ rfl rfl (by decide)).2.2 (by decide)).2.1, by decide⟩

/-- C16: in direction Row or Column, with unbounded integers, every rectangle
that `Draw` assigns has a positive extent along the layout axis, starts at or
after the inner start and ends at or before the inner limit along that axis,
and has the inner origin and extent across it; the rectangles are assigned in
increasing entry order, and each starts at or after the end of every
rectangle assigned before it. -/
theorem Draw_rects_inside (hdir : direction = ContainerRow ∨ direction = ContainerColumn)
    (items : List (containerItem ι)) :
    (∀ c ∈ (drawItems env direction inner items).rects,
        0 < axisExtent direction c.2.2 ∧
        axisOrigin direction inner ≤ axisOrigin direction c.2.2 ∧
        axisOrigin direction c.2.2 + axisExtent direction c.2.2 ≤
          axisOrigin direction inner + axisExtent direction inner ∧
        crossOrigin direction c.2.2 = crossOrigin direction inner ∧
        crossExtent direction c.2.2 = crossExtent direction inner) ∧
      ((drawItems env direction inner items).rects.map Prod.fst).Pairwise (fun a b => a < b) ∧
      (drawItems env direction inner items).rects.Pairwise (fun a b =>
        axisOrigin direction a.2.2 + axisExtent direction a.2.2 ≤
          axisOrigin direction b.2.2) := by
  obtain ⟨new, g1, -, g3, g4⟩ :=
    drawLoop_geom env direction inner.x inner.y inner.width inner.height
      (limitPos direction inner.x inner.y inner.width inner.height) hdir items 0
      ⟨startPos direction inner.x inner.y, [], [], []⟩
  simp only [List.nil_append] at g1
  have hrects : (drawItems env direction inner items).rects = new := g1
  rw [hrects]
  refine ⟨?_, ?_, g4⟩
  · intro c hc
    obtain ⟨h1, h2, h3, -, h5, h6⟩ := g3 c hc
    rw [limitPos_eq] at h3
    exact ⟨h2, h1, h3, h5, h6⟩
  · rw [← hrects]
    exact (drawItems_calls env direction inner items).1

theorem Draw_rects_inside_witness :
    (2, 2, (⟨1, 7, 10, 4⟩ : Rect)) ∈
        (drawItems (ι := Nat) ⟨fun _ _ => 4, fun _ _ => 4, fun _ => false⟩ ContainerRow
          ⟨1, 2, 10, 9⟩ [⟨some 1, 3, false⟩, ⟨none, 2, false⟩, ⟨some 2, -1, true⟩]).rects ∧
      0 < axisExtent ContainerRow (⟨1, 7, 10, 4⟩ : Rect) ∧
      axisOrigin ContainerRow ⟨1, 2, 10, 9⟩ ≤ axisOrigin ContainerRow (⟨1, 7, 10, 4⟩ : Rect) ∧
      axisOrigin ContainerRow (⟨1, 7, 10, 4⟩ : Rect) +
          axisExtent ContainerRow (⟨1, 7, 10, 4⟩ : Rect) ≤
        axisOrigin ContainerRow ⟨1, 2, 10, 9⟩ + axisExtent ContainerRow ⟨1, 2, 10, 9⟩ ∧
      crossOrigin ContainerRow (⟨1, 7, 10, 4⟩ : Rect) = crossOrigin ContainerRow ⟨1, 2, 10, 9⟩ ∧
      crossExtent ContainerRow (⟨1, 7, 10, 4⟩ : Rect) = crossExtent ContainerRow ⟨1, 2, 10, 9⟩ :=
  ⟨by decide,
    (Draw_rects_inside (ι := Nat) ⟨fun _ _ => 4, fun _ _ => 4, fun _ => false⟩ ContainerRow
      ⟨1, 2, 10, 9⟩ (Or.inl rfl)
      [⟨some 1, 3, false⟩, ⟨none, 2, false⟩, ⟨some 2, -1, true⟩]).1 (2, 2, ⟨1, 7, 10, 4⟩)
      (by decide)⟩

end Entries

/-! ## Full screen, Clear, and the calls of the public interface -/

/-- C11: with `fullScreen` set, `Draw` leaves the rectangle `(0, 0, W, H)` of
the screen size in the container, whatever rectangle it had, and lays the
entries out in the inner rectangle of that new rectangle; with `fullScreen`
unset the rectangle is kept and the entries are laid out in its inner
rectangle. Entries, direction and flag are kept. -/
theorem Draw_fullScreen {ι : Type} (env : Primitives ι) (getInnerRect : Rect → Rect)
    (W H : Int) (f : Container ι) :
    (f.fullScreen = true →
        (Draw env getInnerRect (W, H) f).1.rect = ⟨0, 0, W, H⟩ ∧
        (Draw env getInnerRect (W, H) f).2 =
          drawItems env f.direction (getInnerRect ⟨0, 0, W, H⟩) f.items) ∧
      (f.fullScreen = false →
        (Draw env getInnerRect (W, H) f).1.rect = f.rect ∧
        (Draw env getInnerRect (W, H) f).2 =
          drawItems env f.direction (getInnerRect f.rect) f.items) ∧
      (Draw env getInnerRect (W, H) f).1.items = f.items ∧
      (Draw env getInnerRect (W, H) f).1.direction = f.direction ∧
      (Draw env getInnerRect (W, H) f).1.fullScreen = f.fullScreen := by
  refine ⟨?_, ?_, rfl, rfl, rfl⟩
  · intro h
    simp [Draw, h]
  · intro h
    simp [Draw, h]

theorem Draw_fullScreen_witness :
    ((Draw (ι := Nat) ⟨fun _ _ => 2, fun _ _ => 2, fun _ => false⟩
          (fun r => ⟨r.x + 1, r.y + 1, r.width - 2, r.height - 2⟩) (80, 24)
          ⟨[⟨some 1, 3, false⟩], ContainerRow, true, ⟨5, 6, 7, 8⟩⟩).1.rect = ⟨0, 0, 80, 24⟩ ∧
        (Draw (ι := Nat) ⟨fun _ _ => 2, fun _ _ => 2, fun _ => false⟩
          (fun r => ⟨r.x + 1, r.y + 1, r.width - 2, r.height - 2⟩) (80, 24)
          ⟨[⟨some 1, 3, false⟩], ContainerRow, true, ⟨5, 6, 7, 8⟩⟩).2 =
          drawItems ⟨fun _ _ => 2, fun _ _ => 2, fun _ => false⟩ ContainerRow
            ((fun r : Rect => (⟨r.x + 1, r.y + 1, r.width - 2, r.height - 2⟩ : Rect))
              ⟨0, 0, 80, 24⟩) [⟨some 1, 3, false⟩]) ∧
      ((Draw (ι := Nat) ⟨fun _ _ => 2, fun _ _ => 2, fun _ => false⟩
          (fun r => ⟨r.x + 1, r.y + 1, r.width - 2, r.height - 2⟩) (80, 24)
          ⟨[⟨some 1, 3, false⟩], ContainerRow, false, ⟨5, 6, 7, 8⟩⟩).1.rect = ⟨5, 6, 7, 8⟩ ∧
        (Draw (ι := Nat) ⟨fun _ _ => 2, fun _ _ => 2, fun _ => false⟩
          (fun r => ⟨r.x + 1, r.y + 1, r.width - 2, r.height - 2⟩) (80, 24)
          ⟨[⟨some 1, 3, false⟩], ContainerRow, false, ⟨5, 6, 7, 8⟩⟩).2 =
          drawItems ⟨fun _ _ => 2, fun _ _ => 2, fun _ => false⟩ ContainerRow
            ((fun r : Rect => (⟨r.x + 1, r.y + 1, r.width - 2, r.height - 2⟩ : Rect))
              ⟨5, 6, 7, 8⟩) [⟨some 1, 3, false⟩]) :=
  ⟨(Draw_fullScreen (ι := Nat) ⟨fun _ _ => 2, fun _ _ => 2, fun _ => false⟩
      (fun r => ⟨r.x + 1, r.y + 1, r.width - 2, r.height - 2⟩) 80 24
      ⟨[⟨some 1, 3, false⟩], ContainerRow, true, ⟨5, 6, 7, 8⟩⟩).1 rfl,
    (Draw_fullScreen (ι := Nat) ⟨fun _ _ => 2, fun _ _ => 2, fun _ => false⟩
      (fun r => ⟨r.x + 1, r.y + 1, r.width - 2, r.height - 2⟩) 80 24
      ⟨[⟨some 1, 3, false⟩], ContainerRow, false, ⟨5, 6, 7, 8⟩⟩).2.1 rfl⟩

/-- C13: after `Clear()` the entry list is empty: `HasFocus` is false, `Focus`
calls no delegate, `Draw` makes no `SetRect` call and draws no item; direction
and full-screen flag are kept. -/
theorem Clear_empties {ι : Type} (env : Primitives ι) (getInnerRect : Rect → Rect)
    (screenSize : Int × Int) (f : Container ι) :
    (Clear f).items = [] ∧
      HasFocus env (Clear f).items = false ∧
      Focus (Clear f).items = [] ∧
      (Draw env getInnerRect screenSize (Clear f)).2.rects = [] ∧
      (Draw env getInnerRect screenSize (Clear f)).2.draws = [] ∧
      (Clear f).direction = f.direction ∧ (Clear f).fullScreen = f.fullScreen :=
  ⟨rfl, rfl, rfl, rfl, rfl, rfl, rfl⟩

theorem removeItems_eq_filter {ι : Type} [DecidableEq ι] (items : List (containerItem ι))
    (p : Option ι) :
    removeItems items p = some (items.filter (fun e => decide (e.Item ≠ p))) := by
  unfold removeItems
  rw [removeLoop_eq p _ _ (le_refl _)]
  simp

/-- With item equality taken as total, the reverse scan of `RemoveItem` ends,
without indexing outside the
entry list, for every entry list and every item argument, nil included; when
no entry references the item the entry list comes back unchanged. -/
theorem RemoveItem_total {ι : Type} [DecidableEq ι] (f : Container ι) (p : Option ι) :
    (∃ f2, RemoveItem f p = some f2) ∧
      ((∀ e ∈ f.items, e.Item ≠ p) → RemoveItem f p = some f) := by
  unfold RemoveItem
  rw [removeItems_eq_filter]
  refine ⟨⟨_, rfl⟩, ?_⟩
  intro h
  have : f.items.filter (fun e => decide (e.Item ≠ p)) = f.items := by
    rw [List.filter_eq_self]
    intro e he
    simpa using h e he
  rw [this]
  rfl

theorem RemoveItem_total_witness :
    RemoveItem (ι := Nat) ⟨[⟨some 1, 3, false⟩, ⟨none, 2, true⟩], ContainerRow, false,
        ⟨0, 0, 10, 5⟩⟩ (some 4) =
      some ⟨[⟨some 1, 3, false⟩, ⟨none, 2, true⟩], ContainerRow, false, ⟨0, 0, 10, 5⟩⟩ :=
  (RemoveItem_total (ι := Nat) ⟨[⟨some 1, 3, false⟩, ⟨none, 2, true⟩], ContainerRow, false,
    ⟨0, 0, 10, 5⟩⟩ (some 4)).2 (by decide)

theorem call_present {ι : Type} [DecidableEq ι] (f : Container ι) (c : Call ι)
    (h : ∀ e ∈ f.items, ∃ p, e.Item = some p) :
    ∃ f2, call f c = some f2 ∧ ∀ e ∈ f2.items, ∃ p, e.Item = some p := by
  cases c with
  | addItem item fixedSize focus =>
    refine ⟨_, rfl, ?_⟩
    cases item with
    | none => exact h
    | some q =>
      intro e he
      simp only [AddItem, List.mem_append, List.mem_singleton] at he
      rcases he with he | he
      · exact h e he
      · subst he; exact ⟨q, rfl⟩
  | removeItem p =>
    refine ⟨_, by simp only [call, RemoveItem, removeItems_eq_filter]; rfl, ?_⟩
    intro e he
    exact h e (List.mem_filter.1 he).1
  | resizeItem p fixedSize proportion =>
    refine ⟨_, rfl, ?_⟩
    intro e he
    simp only [ResizeItem, resizeItems_eq_map, List.mem_map] at he
    obtain ⟨e0, he0, rfl⟩ := he
    obtain ⟨q, hq⟩ := h e0 he0
    by_cases hp : e0.Item = p
    · rw [if_pos hp]; exact ⟨q, hq⟩
    · rw [if_neg hp]; exact ⟨q, hq⟩
  | clear =>
    refine ⟨_, rfl, ?_⟩
    intro e he
    cases he
  | setDirection direction => exact ⟨_, rfl, h⟩
  | setFullScreen fullScreen => exact ⟨_, rfl, h⟩

theorem calls_present {ι : Type} [DecidableEq ι] (cs : List (Call ι)) :
    ∀ f : Container ι, (∀ e ∈ f.items, ∃ p, e.Item = some p) →
      ∃ f2, calls f cs = some f2 ∧ ∀ e ∈ f2.items, ∃ p, e.Item = some p := by
  induction cs with
  | nil => intro f h; exact ⟨f, rfl, h⟩
  | cons c cs ih =>
    intro f h
    obtain ⟨f1, h1, h2⟩ := call_present f c h
    obtain ⟨f2, h3, h4⟩ := ih f1 h2
    refine ⟨f2, ?_, h4⟩
    rw [calls, h1]
    exact h3

/-- C17: from `NewContainer()`, every finite sequence of `AddItem`,
`RemoveItem`, `ResizeItem`, `Clear`, `SetDirection` and `SetFullScreen` calls,
whatever the arguments, runs to a container in which every entry has an item:
the test `item.Item == nil` that opens the loop body of `Draw` is false at
every entry of such a container. -/
theorem calls_keep_items_present {ι : Type} [DecidableEq ι] (boxRect : Rect)
    (cs : List (Call ι)) :
    ∃ f, calls (NewContainer boxRect) cs = some f ∧ ∀ e ∈ f.items, ∃ p, e.Item = some p :=
  calls_present cs (NewContainer boxRect) (fun e he => by cases he)

/-- C19 (the code against the claim): with direction 2, inner rectangle
`(0, 0, 10, 5)` and two entries of fixed sizes 3 and 4, `Draw` takes cursor
and limit from the horizontal axis (start `x`, limit `x + width = 10`) and puts
the cursor value in the vertical coordinate of the rectangles: the second item
gets `(0, 3, 10, 4)`, which ends below the inner rectangle. Neither the Row
layout nor the Column layout of the same entries is obtained. -/
theorem Draw_direction_two_mixes_axes :
    (∀ x y w h pos size : Int,
        startPos 2 x y = x ∧ limitPos 2 x y w h = x + w ∧
          itemRect 2 x y w h pos size = ⟨x, pos, w, size⟩) ∧
      (∀ (env : Primitives Nat) (w h : Int) (p : Nat),
        requiredSize env 2 w h ⟨some p, -1, false⟩ p = env.GetWidth p h) ∧
      (drawItems (ι := Nat) ⟨fun _ _ => 0, fun _ _ => 0, fun _ => false⟩ 2 ⟨0, 0, 10, 5⟩
          [⟨some 1, 3, false⟩, ⟨some 2, 4, false⟩]).rects =
        [(0, 1, ⟨0, 0, 10, 3⟩), (1, 2, ⟨0, 3, 10, 4⟩)] ∧
      (drawItems (ι := Nat) ⟨fun _ _ => 0, fun _ _ => 0, fun _ => false⟩ ContainerRow
          ⟨0, 0, 10, 5⟩ [⟨some 1, 3, false⟩, ⟨some 2, 4, false⟩]).rects =
        [(0, 1, ⟨0, 0, 10, 3⟩), (1, 2, ⟨0, 3, 10, 2⟩)] ∧
      (drawItems (ι := Nat) ⟨fun _ _ => 0, fun _ _ => 0, fun _ => false⟩ ContainerColumn
          ⟨0, 0, 10, 5⟩ [⟨some 1, 3, false⟩, ⟨some 2, 4, false⟩]).rects =
        [(0, 1, ⟨0, 0, 3, 5⟩), (1, 2, ⟨3, 0, 4, 5⟩)] := by
  refine ⟨?_, ?_, by decide, by decide, by decide⟩
  · intro x y w h pos size
    simp [startPos, limitPos, itemRect, ContainerRow, ContainerColumn]
  · intro env w h p
    simp [requiredSize, ContainerRow]

/-! ## Draw with 64-bit integers: agreement and overflow -/

section Wrap

variable {ι : Type} (env : Primitives ι) (direction : Int)

theorem wrap64_eq (n : Int) (h1 : minInt64 ≤ n) (h2 : n ≤ maxInt64) : wrap64 n = n := by
  unfold wrap64
  unfold minInt64 at h1
  unfold maxInt64 at h2
  omega

theorem drawEntry64_eq (x y width height maxPos : Int) (idx : Nat) (item : containerItem ι)
    (st : DrawState ι) (p : ι) (hI : item.Item = some p) (lo : Int) (hlo : minInt64 ≤ lo)
    (h1 : lo ≤ st.pos) (h2 : st.pos ≤ maxPos) (h3 : maxPos ≤ maxInt64)
    (h4 : maxPos - lo ≤ maxInt64)
    (h5 : 0 < requiredSize env direction width height item p)
    (h6 : maxPos + requiredSize env direction width height item p ≤ maxInt64) :
    drawEntry64 env direction x y width height maxPos idx item st =
        drawEntry env direction x y width height maxPos idx item st ∧
      lo ≤ (drawEntry env direction x y width height maxPos idx item st).1.pos ∧
      (drawEntry env direction x y width height maxPos idx item st).1.pos ≤ maxPos := by
  have hmin : minInt64 = -9223372036854775808 := rfl
  have hmax : maxInt64 = 9223372036854775807 := rfl
  have hc : clipSize64 st.pos maxPos (requiredSize env direction width height item p) =
      clipSize st.pos maxPos (requiredSize env direction width height item p) := by
    unfold clipSize64 clipSize
    rw [wrap64_eq (st.pos + requiredSize env direction width height item p) (by omega)
      (by omega), wrap64_eq (maxPos - st.pos) (by omega) (by omega)]
  have hle := clipSize_le maxPos st.pos (requiredSize env direction width height item p)
  obtain ⟨hmono, hposeq⟩ := drawEntry_pos env direction x y width height maxPos idx item st
  refine ⟨?_, by omega, ?_⟩
  · unfold drawEntry64 drawEntry
    rw [hI]
    simp only [hc]
    by_cases hs : clipSize st.pos maxPos (requiredSize env direction width height item p) > 0
    · simp only [if_pos hs]
      rw [wrap64_eq (st.pos + clipSize st.pos maxPos
        (requiredSize env direction width height item p)) (by omega) (by omega)]
    · simp only [if_neg hs]
  · by_cases hs : clipSize st.pos maxPos (requiredSize env direction width height item p) > 0
    · rw [hposeq p hI hs]; exact hle
    · rw [drawEntry_skip env direction x y width height maxPos idx item st p hI (by omega)]
      exact h2

theorem drawLoop64_eq (x y width height maxPos : Int) (lo : Int) (hlo : minInt64 ≤ lo)
    (h3 : maxPos ≤ maxInt64) (h4 : maxPos - lo ≤ maxInt64) (items : List (containerItem ι)) :
    ∀ (idx : Nat) (st : DrawState ι), lo ≤ st.pos → st.pos ≤ maxPos →
      (∀ e ∈ items, e.Item ≠ none) →
      (∀ s ∈ requiredSizes env direction width height items, 0 < s ∧ maxPos + s ≤ maxInt64) →
      drawLoop64 env direction x y width height maxPos idx items st =
        drawLoop env direction x y width height maxPos idx items st := by
  induction items with
  | nil => intro idx st _ _ _ _; rfl
  | cons e rest ih =>
    intro idx st h1 h2 hpres hsizes
    obtain ⟨p, hI⟩ := Option.ne_none_iff_exists'.1 (hpres e (List.mem_cons_self _ _))
    rw [requiredSizes_cons env direction width height e rest p hI] at hsizes
    have h0 := hsizes _ (List.mem_cons_self _ _)
    obtain ⟨heq, hlo2, hhi2⟩ := drawEntry64_eq env direction x y width height maxPos idx e st p
      hI lo hlo h1 h2 h3 h4 h0.1 h0.2
    rw [drawLoop64, drawLoop, heq]
    by_cases hb : (drawEntry env direction x y width height maxPos idx e st).2 = true
    · rw [if_pos hb, if_pos hb]
    · rw [if_neg hb, if_neg hb]
      exact ih _ _ hlo2 hhi2 (fun e2 h => hpres e2 (List.mem_cons_of_mem _ h))
        (fun s hs => hsizes s (List.mem_cons_of_mem _ hs))

/-- The 64-bit computation of `Draw` is the unbounded one when every entry has
an item and a positive required size, the inner start, extent and limit are
64-bit values and the limit plus any required size does not exceed the largest
64-bit value. -/
theorem drawItems64_eq_drawItems (inner : Rect) (items : List (containerItem ι))
    (hpres : ∀ e ∈ items, e.Item ≠ none)
    (hstart : minInt64 ≤ axisOrigin direction inner)
    (hext : 0 ≤ axisExtent direction inner) (hext2 : axisExtent direction inner ≤ maxInt64)
    (hlim : axisOrigin direction inner + axisExtent direction inner ≤ maxInt64)
    (hsizes : ∀ s ∈ requiredSizes env direction inner.width inner.height items,
      0 < s ∧ axisOrigin direction inner + axisExtent direction inner + s ≤ maxInt64) :
    drawItems64 env direction inner items = drawItems env direction inner items := by
  have hl64 : limitPos64 direction inner.x inner.y inner.width inner.height =
      limitPos direction inner.x inner.y inner.width inner.height := by
    have hl := limitPos_eq direction inner
    unfold limitPos64
    unfold limitPos at hl ⊢
    have hmin : minInt64 = -9223372036854775808 := rfl
    by_cases hd : direction = ContainerRow
    · simp only [if_pos hd] at hl ⊢
      rw [wrap64_eq _ (by omega) (by omega)]
    · simp only [if_neg hd] at hl ⊢
      rw [wrap64_eq _ (by omega) (by omega)]
  unfold drawItems64 drawItems
  simp only
  rw [hl64, drawLoop64_eq env direction inner.x inner.y inner.width inner.height
    (limitPos direction inner.x inner.y inner.width inner.height) (axisOrigin direction inner)
    hstart (by rw [limitPos_eq]; exact hlim) (by rw [limitPos_eq]; omega) items 0 _
    (le_refl _) (by rw [limitPos_eq]; show axisOrigin direction inner ≤ _; omega) hpres
    (by rw [limitPos_eq]; exact hsizes)]

/-- C2 (as stated, refuted). Column, inner rectangle `(1, 0, 10, 5)`, entries
with fixed sizes `9223372036854775807` and `3`: every entry has an item, the
sizes are positive and sum to more than the inner width 10, the first entry is
the one at which the running sum exceeds it. The sum `pos + size` of line 155
wraps to a negative value, so nothing is clipped: the first item gets the
width `9223372036854775807`, not 10, and the second item gets a rectangle too.
Second input, Column, inner `(0, 0, 10, 5)`, fixed sizes 10 and 3: the second
entry is the first at which the running sum exceeds 10, the remainder is 0 and
that entry gets no rectangle. -/
theorem Draw64_overflow_wraps :
    (∀ e ∈ [(⟨some 1, 9223372036854775807, false⟩ : containerItem Nat), ⟨some 2, 3, false⟩],
        e.Item ≠ none) ∧
      (∀ s ∈ requiredSizes (ι := Nat) ⟨fun _ _ => 0, fun _ _ => 0, fun _ => false⟩
          ContainerColumn 10 5 [⟨some 1, 9223372036854775807, false⟩, ⟨some 2, 3, false⟩],
        0 < s) ∧
      axisExtent ContainerColumn ⟨1, 0, 10, 5⟩ <
        (requiredSizes (ι := Nat) ⟨fun _ _ => 0, fun _ _ => 0, fun _ => false⟩
          ContainerColumn 10 5 [⟨some 1, 9223372036854775807, false⟩]).sum ∧
      (drawItems64 (ι := Nat) ⟨fun _ _ => 0, fun _ _ => 0, fun _ => false⟩ ContainerColumn
          ⟨1, 0, 10, 5⟩ [⟨some 1, 9223372036854775807, false⟩, ⟨some 2, 3, false⟩]).rects =
        [(0, 1, ⟨1, 0, 9223372036854775807, 5⟩), (1, 2, ⟨-9223372036854775808, 0, 3, 5⟩)] ∧
      (drawItems64 (ι := Nat) ⟨fun _ _ => 0, fun _ _ => 0, fun _ => false⟩ ContainerColumn
          ⟨0, 0, 10, 5⟩ [⟨some 1, 10, false⟩, ⟨some 2, 3, false⟩]).rects =
        [(0, 1, ⟨0, 0, 10, 5⟩)] := by
  decide

/-- C2 (amended): direction Row or Column, 64-bit Go arithmetic, every entry
with an item and a positive required size (`FixedSize` when `≥ 0`, the natural
size otherwise); the inner start, the inner extent `E` and the limit
`start + E` are 64-bit values and the limit plus any required size does not
exceed the largest 64-bit value, so that no sum wraps; `e` is the first entry
at which the running sum of required sizes exceeds `E`, `S` the sum before it.
Then every entry before `e` is assigned one rectangle of its full required size
at the inner start plus the sum before it; `e` is assigned one rectangle of
extent `E - S` at the inner start plus `S` when `E - S > 0`, and none when
`E - S = 0`; no entry after `e` is assigned a rectangle or drawn; the extents
assigned sum to `E`. -/
theorem Draw64_overflow_clipped (inner : Rect)
    (hdir : direction = ContainerRow ∨ direction = ContainerColumn)
    (before after : List (containerItem ι)) (e : containerItem ι) (p : ι)
    (hpres : ∀ e2 ∈ before ++ e :: after, e2.Item ≠ none)
    (hI : e.Item = some p)
    (hstart : minInt64 ≤ axisOrigin direction inner)
    (hext2 : axisExtent direction inner ≤ maxInt64)
    (hlim : axisOrigin direction inner + axisExtent direction inner ≤ maxInt64)
    (hsizes : ∀ s ∈ requiredSizes env direction inner.width inner.height (before ++ e :: after),
      0 < s ∧ axisOrigin direction inner + axisExtent direction inner + s ≤ maxInt64)
    (hk1 : (requiredSizes env direction inner.width inner.height before).sum ≤
      axisExtent direction inner)
    (hk2 : axisExtent direction inner <
      (requiredSizes env direction inner.width inner.height before).sum +
        requiredSize env direction inner.width inner.height e p) :
    (∀ (b1 b2 : List (containerItem ι)) (e1 : containerItem ι) (p1 : ι),
        before = b1 ++ e1 :: b2 → e1.Item = some p1 →
        ∃ r, rectsOf (drawItems64 env direction inner (before ++ e :: after)) b1.length =
            [(b1.length, p1, r)] ∧
          axisOrigin direction r = axisOrigin direction inner +
            (requiredSizes env direction inner.width inner.height b1).sum ∧
          axisExtent direction r = requiredSize env direction inner.width inner.height e1 p1) ∧
      (0 < axisExtent direction inner -
          (requiredSizes env direction inner.width inner.height before).sum →
        ∃ r, rectsOf (drawItems64 env direction inner (before ++ e :: after)) before.length =
            [(before.length, p, r)] ∧
          axisOrigin direction r = axisOrigin direction inner +
            (requiredSizes env direction inner.width inner.height before).sum ∧
          axisExtent direction r = axisExtent direction inner -
            (requiredSizes env direction inner.width inner.height before).sum) ∧
      (axisExtent direction inner -
          (requiredSizes env direction inner.width inner.height before).sum = 0 →
        rectsOf (drawItems64 env direction inner (before ++ e :: after)) before.length = []) ∧
      (∀ c ∈ (drawItems64 env direction inner (before ++ e :: after)).rects,
        c.1 ≤ before.length) ∧
      (∀ d ∈ (drawItems64 env direction inner (before ++ e :: after)).draws,
        d.1 ≤ before.length) ∧
      ((drawItems64 env direction inner (before ++ e :: after)).rects.map
        (fun c => axisExtent direction c.2.2)).sum = axisExtent direction inner := by
  have hS : 0 ≤ (requiredSizes env direction inner.width inner.height before).sum :=
    sum_nonneg_of _ (fun s hs => le_of_lt
      (hsizes s (by rw [requiredSizes_append]; exact List.mem_append_left _ hs)).1)
  rw [drawItems64_eq_drawItems env direction inner _ hpres hstart (by omega) hext2 hlim hsizes]
  obtain ⟨a1, -, a3, a4, a5, a6, a7⟩ := Draw_overflow_clipped env direction inner hdir before
    after e p hpres (fun s hs => (hsizes s hs).1) hI hk1 hk2
  exact ⟨a1, a3, a4, a5, a6, a7⟩

theorem Draw64_overflow_clipped_witness :
    (drawItems64 (ι := Nat) ⟨fun _ _ => 4, fun _ _ => 4, fun _ => false⟩ ContainerColumn
        ⟨0, 0, 10, 5⟩
        ([⟨some 1, 3, false⟩, ⟨some 2, -1, false⟩] ++ ⟨some 3, 10, false⟩ :: [])).rects =
        [(0, 1, ⟨0, 0, 3, 5⟩), (1, 2, ⟨3, 0, 4, 5⟩), (2, 3, ⟨7, 0, 3, 5⟩)] ∧
      ∃ r, rectsOf (drawItems64 (ι := Nat) ⟨fun _ _ => 4, fun _ _ => 4, fun _ => false⟩
            ContainerColumn ⟨0, 0, 10, 5⟩
            ([⟨some 1, 3, false⟩, ⟨some 2, -1, false⟩] ++ ⟨some 3, 10, false⟩ :: [])) 2 =
          [(2, 3, r)] ∧
        axisOrigin ContainerColumn r = 7 ∧ axisExtent ContainerColumn r = 3 :=
  ⟨by decide,
    (Draw64_overflow_clipped (ι := Nat) ⟨fun _ _ => 4, fun _ _ => 4, fun _ => false⟩
      ContainerColumn ⟨0, 0, 10, 5⟩ (Or.inr rfl)
      [⟨some 1, 3, false⟩, ⟨some 2, -1, false⟩] [] ⟨some 3, 10, false⟩ 3
      (by decide) rfl (by decide) (by decide) (by decide) (by decide) (by decide)
      (by decide)).2.1 (by decide)⟩

end Wrap

/-! ## RemoveItem with the panic of an interface comparison -/

section Cmp

variable {ι : Type} [DecidableEq ι] (C : Comparison ι) (p : Option ι)

theorem ifaceEq_eq (a : Option ι) (h : ifaceEq C a p ≠ none) :
    ifaceEq C a p = some (decide (a = p)) := by
  cases a with
  | none => cases p <;> simp [ifaceEq]
  | some u =>
    cases p with
    | none => simp [ifaceEq]
    | some v =>
      by_cases hp : C.panics u v = true
      · exact absurd (by simp [ifaceEq, hp]) h
      · simp [ifaceEq, hp]

theorem ifaceEq_nil (a : Option ι) : ifaceEq C a none ≠ none := by
  cases a <;> simp [ifaceEq]

theorem removeLoopCmp_ok :
    ∀ (n : Nat) (items : List (containerItem ι)), n ≤ items.length →
      (∀ e ∈ items, ifaceEq C e.Item p ≠ none) →
      removeLoopCmp C p n items =
        .ok ((items.take n).filter (fun e => decide (e.Item ≠ p)) ++ items.drop n) := by
  intro n
  induction n with
  | zero => intro items _ _; simp [removeLoopCmp]
  | succ n ih =>
    intro items hn hcmp
    have hlt : n < items.length := hn
    have hget : items[n]? = some items[n] := List.getElem?_eq_getElem hlt
    have htake : items.take (n + 1) = items.take n ++ [items[n]] := by
      rw [List.take_succ, hget]; rfl
    have hdrop : items.drop n = items[n] :: items.drop (n + 1) := by
      rw [List.drop_eq_getElem_cons hlt]
    have hlen : (items.take n).length = n := by
      rw [List.length_take]; omega
    have hcur := ifaceEq_eq C p items[n].Item (hcmp _ (List.getElem_mem _))
    rw [removeLoopCmp, hget]
    simp only
    rw [hcur]
    by_cases h : items[n].Item = p
    · have hd : decide (items[n].Item = p) = true := by simp [h]
      rw [hd]
      simp only
      rw [ih _ (by rw [List.length_append, hlen]; omega) (by
        intro e he
        rcases List.mem_append.1 he with he | he
        · exact hcmp e (List.mem_of_mem_take he)
        · exact hcmp e (List.mem_of_mem_drop he))]
      have h1 : (items.take n ++ items.drop (n + 1)).take n = items.take n := by
        rw [List.take_append_eq_append_take, hlen]; simp
      have h2 : (items.take n ++ items.drop (n + 1)).drop n = items.drop (n + 1) := by
        rw [List.drop_append_eq_append_drop, hlen]; simp
      rw [h1, h2, htake, List.filter_append]
      simp [h]
    · have hd : decide (items[n].Item = p) = false := by simp [h]
      rw [hd]
      simp only
      rw [ih _ (by omega) hcmp, htake, List.filter_append, hdrop]
      simp [h]

theorem removeLoopCmp_index :
    ∀ (n : Nat) (items : List (containerItem ι)), n ≤ items.length →
      removeLoopCmp C p n items ≠ .error .indexOutOfRange := by
  intro n
  induction n with
  | zero => intro items _; simp [removeLoopCmp]
  | succ n ih =>
    intro items hn
    have hlt : n < items.length := hn
    have hget : items[n]? = some items[n] := List.getElem?_eq_getElem hlt
    have hlen : (items.take n).length = n := by
      rw [List.length_take]; omega
    rw [removeLoopCmp, hget]
    simp only
    cases hc : ifaceEq C items[n].Item p with
    | none => simp
    | some b =>
      cases b with
      | true => exact ih _ (by rw [List.length_append, hlen]; omega)
      | false => exact ih _ (by omega)

theorem removeLoopCmp_panics :
    ∀ (n : Nat) (items : List (containerItem ι)), n ≤ items.length →
      (∃ e ∈ items.take n, ifaceEq C e.Item p = none) →
      removeLoopCmp C p n items = .error .uncomparable := by
  intro n
  induction n with
  | zero => intro items _ h; simp at h
  | succ n ih =>
    intro items hn hex
    have hlt : n < items.length := hn
    have hget : items[n]? = some items[n] := List.getElem?_eq_getElem hlt
    have htake : items.take (n + 1) = items.take n ++ [items[n]] := by
      rw [List.take_succ, hget]; rfl
    have hlen : (items.take n).length = n := by
      rw [List.length_take]; omega
    rw [removeLoopCmp, hget]
    simp only
    cases hc : ifaceEq C items[n].Item p with
    | none => rfl
    | some b =>
      obtain ⟨e, he, hpe⟩ := hex
      rw [htake] at he
      have he2 : e ∈ items.take n := by
        rcases List.mem_append.1 he with he | he
        · exact he
        · rw [List.mem_singleton] at he
          subst he
          rw [hc] at hpe
          cases hpe
      cases b with
      | true =>
        have h1 : (items.take n ++ items.drop (n + 1)).take n = items.take n := by
          rw [List.take_append_eq_append_take, hlen]; simp
        exact ih _ (by rw [List.length_append, hlen]; omega) ⟨e, by rw [h1]; exact he2, hpe⟩
      | false => exact ih _ (by omega) ⟨e, he2, hpe⟩

/-- C14 (as stated, refuted). The entries hold items 1 and 7, where 7 is a
value of an uncomparable dynamic type: `RemoveItem(7)` panics in the comparison
`f.items[index].Item == p` and returns nothing. Second input: items 7 and 8
are two values of one uncomparable dynamic type, the only entry holds 7, so no
entry references 8: `RemoveItem(8)` panics and does not return the list. -/
theorem RemoveItem_uncomparable_panics :
    RemoveItemCmp (ι := Nat) ⟨fun u v => decide (u = 7 ∧ v = 7)⟩
        ⟨[⟨some 1, 3, false⟩, ⟨some 7, 2, false⟩], ContainerColumn, false, ⟨0, 0, 10, 5⟩⟩
        (some 7) = .error .uncomparable ∧
      (∀ e ∈ [(⟨some 7, 2, false⟩ : containerItem Nat)], e.Item ≠ some 8) ∧
      RemoveItemCmp (ι := Nat) ⟨fun u v => decide (7 ≤ u ∧ 7 ≤ v)⟩
        ⟨[⟨some 7, 2, false⟩], ContainerColumn, false, ⟨0, 0, 10, 5⟩⟩
        (some 8) = .error .uncomparable :=
  ⟨rfl, by decide, rfl⟩

/-- C14 (amended): for every entry list and every item argument the reverse
scan of `RemoveItem` never indexes the entry list out of range. When no
comparison of an entry's item with the argument panics (always so for a nil
argument, and for items of comparable dynamic types such as pointers), the
scan ends and returns the list without the entries that reference the item,
which is the list unchanged when no entry references it. When some entry's
item and the argument are values of one uncomparable dynamic type, the call
panics in the comparison. -/
theorem RemoveItem_total_comparable (f : Container ι) :
    RemoveItemCmp C f p ≠ .error .indexOutOfRange ∧
      ((∀ e ∈ f.items, ifaceEq C e.Item p ≠ none) →
        RemoveItemCmp C f p =
            .ok ⟨f.items.filter (fun e => decide (e.Item ≠ p)), f.direction, f.fullScreen,
              f.rect⟩ ∧
          ((∀ e ∈ f.items, e.Item ≠ p) → RemoveItemCmp C f p = .ok f)) ∧
      ((∃ e ∈ f.items, ifaceEq C e.Item p = none) →
        RemoveItemCmp C f p = .error .uncomparable) ∧
      (p = none → ∃ f2, RemoveItemCmp C f p = .ok f2) := by
  have hok : (∀ e ∈ f.items, ifaceEq C e.Item p ≠ none) →
      RemoveItemCmp C f p =
        .ok ⟨f.items.filter (fun e => decide (e.Item ≠ p)), f.direction, f.fullScreen,
          f.rect⟩ := by
    intro h
    unfold RemoveItemCmp
    rw [removeLoopCmp_ok C p _ _ (le_refl _) h]
    simp
  refine ⟨?_, ?_, ?_, ?_⟩
  · have h := removeLoopCmp_index C p f.items.length f.items (le_refl _)
    unfold RemoveItemCmp
    cases hr : removeLoopCmp C p f.items.length f.items with
    | ok l => simp
    | error e =>
      rw [hr] at h
      simpa using h
  · intro h
    refine ⟨hok h, ?_⟩
    intro hno
    rw [hok h]
    have : f.items.filter (fun e => decide (e.Item ≠ p)) = f.items := by
      rw [List.filter_eq_self]
      intro e he
      simpa using hno e he
    rw [this]
  · intro h
    unfold RemoveItemCmp
    rw [removeLoopCmp_panics C p _ _ (le_refl _) (by rw [List.take_length]; exact h)]
  · intro hp
    subst hp
    exact ⟨_, hok (fun e _ => ifaceEq_nil C e.Item)⟩

theorem RemoveItem_total_comparable_witness :
    RemoveItemCmp (ι := Nat) ⟨fun u v => decide (u = 7 ∧ v = 7)⟩
        ⟨[⟨some 1, 3, false⟩, ⟨some 7, 2, false⟩, ⟨some 1, 0, true⟩], ContainerColumn, false,
          ⟨0, 0, 10, 5⟩⟩ (some 1) =
        .ok ⟨[⟨some 7, 2, false⟩], ContainerColumn, false, ⟨0, 0, 10, 5⟩⟩ ∧
      RemoveItemCmp (ι := Nat) ⟨fun u v => decide (u = 7 ∧ v = 7)⟩
        ⟨[⟨some 1, 3, false⟩, ⟨some 7, 2, false⟩], ContainerColumn, false,
          ⟨0, 0, 10, 5⟩⟩ (some 4) =
        .ok ⟨[⟨some 1, 3, false⟩, ⟨some 7, 2, false⟩], ContainerColumn, false,
          ⟨0, 0, 10, 5⟩⟩ :=
  ⟨((RemoveItem_total_comparable (ι := Nat) ⟨fun u v => decide (u = 7 ∧ v = 7)⟩ (some 1)
      ⟨[⟨some 1, 3, false⟩, ⟨some 7, 2, false⟩, ⟨some 1, 0, true⟩], ContainerColumn, false,
        ⟨0, 0, 10, 5⟩⟩).2.1 (by decide)).1,
    ((RemoveItem_total_comparable (ι := Nat) ⟨fun u v => decide (u = 7 ∧ v = 7)⟩ (some 4)
      ⟨[⟨some 1, 3, false⟩, ⟨some 7, 2, false⟩], ContainerColumn, false,
        ⟨0, 0, 10, 5⟩⟩).2.1 (by decide)).2 (by decide)⟩

end Cmp

end Tview
